import Mathlib

/-!
Verification of the `is_constructs` text-to-vector-space pipeline.

This file gives a shallow embedding of the core functions of
`is_constructs.py` and `myLSA.py` (document-term matrix construction,
log-entropy and tf-idf weighting, L2 row normalization, the gold identity
matrix builder, the out-of-vocabulary vector resolver, the text normalizer
and the top-k similarity aggregators) and proves or refutes the frozen
claims about them.

Conventions of the embedding:
* python floats are modelled as real numbers (`ℝ`) where transcendental
  functions (log, sqrt) occur, and as rationals (`ℚ`) where the code is
  purely arithmetical, so that concrete instances can be decided;
* numpy NaN values are modelled by `Option` (`none` = NaN); `np.nan_to_num`
  is `Option.getD 0`;
* fallible calls (the sklearn vectorizer raising on an empty vocabulary,
  `next(iter(d.values()))` raising on an empty dict) return `Option`;
* matrices are lists of rows; `List.getD` reads entries.
-/

namespace IsConstructs

/-! ### The sklearn CountVectorizer tokenizer

`CountVectorizer` / `TfidfVectorizer` are called with
`stop_words=None, lowercase=False` and the default
`token_pattern=r"(?u)\b\w\w+\b"`: tokens are the maximal runs of word
characters (letters, digits, underscore) of length at least two.  The
vocabulary is the sorted list of distinct tokens; `fit_transform` raises
`ValueError` when it is empty. -/

def isWordChar (c : Char) : Bool := c.isAlphanum || c == '_'

/-- Maximal runs of characters satisfying `p` (the accumulator holds the
current run, reversed). -/
def runsAux (p : Char → Bool) : List Char → List Char → List (List Char)
  | [], acc => if acc.isEmpty then [] else [acc.reverse]
  | c :: cs, acc =>
    if p c then runsAux p cs (c :: acc)
    else if acc.isEmpty then runsAux p cs []
    else acc.reverse :: runsAux p cs []

/-- Tokens of one document under the default sklearn token pattern:
maximal word-character runs of length `≥ 2`. -/
def cvTokenize (doc : String) : List String :=
  ((runsAux isWordChar doc.toList []).filter (fun r => 2 ≤ r.length)).map
    (fun r => String.mk r)

/-- Distinct elements in encounter order (sklearn assigns vocabulary
indices in encounter order before sorting the feature names). -/
def dedupFirstAux : List String → List String → List String
  | [], _ => []
  | x :: xs, seen =>
    if x ∈ seen then dedupFirstAux xs seen
    else x :: dedupFirstAux xs (x :: seen)

/-- Lexicographic comparison of character lists (the order in which numpy
and sklearn sort the feature names). -/
def charListLe : List Char → List Char → Bool
  | [], _ => true
  | _ :: _, [] => false
  | a :: as, b :: bs =>
    if a < b then true else if b < a then false else charListLe as bs

def strLe (a b : String) : Prop := charListLe a.toList b.toList = true

instance : DecidableRel strLe := fun a b => by unfold strLe; infer_instance

instance : IsTotal String strLe := by
  constructor
  intro a b
  unfold strLe
  generalize a.toList = x
  generalize b.toList = y
  induction x generalizing y with
  | nil => left; rfl
  | cons c cs ih =>
    cases y with
    | nil => right; rfl
    | cons d ds =>
      rcases lt_trichotomy c d with h | h | h
      · left; simp [charListLe, h]
      · subst h
        rcases ih ds with h2 | h2
        · left; simp [charListLe, lt_irrefl, h2]
        · right; simp [charListLe, lt_irrefl, h2]
      · right; simp [charListLe, h]

instance : IsTrans String strLe := by
  constructor
  intro a b c
  unfold strLe
  generalize a.toList = x
  generalize b.toList = y
  generalize c.toList = z
  induction x generalizing y z with
  | nil => intro _ _; rfl
  | cons a0 as ih =>
    intro h1 h2
    cases y with
    | nil => simp [charListLe] at h1
    | cons b0 bs =>
      cases z with
      | nil => simp [charListLe] at h2
      | cons c0 cs =>
        rcases lt_trichotomy a0 b0 with hab | hab | hab
        · rcases lt_trichotomy b0 c0 with hbc | hbc | hbc
          · simp [charListLe, lt_trans hab hbc]
          · subst hbc; simp [charListLe, hab]
          · simp [charListLe, hbc, not_lt_of_gt hbc] at h2
        · subst hab
          rcases lt_trichotomy a0 c0 with hbc | hbc | hbc
          · simp [charListLe, hbc]
          · subst hbc
            simp only [charListLe, lt_irrefl, if_neg (lt_irrefl a0)] at h1 h2 ⊢
            exact ih bs cs h1 h2
          · simp [charListLe, hbc, not_lt_of_gt hbc] at h2
        · simp [charListLe, hab, not_lt_of_gt hab] at h1

instance : IsAntisymm String strLe := by
  constructor
  intro a b h1 h2
  unfold strLe at h1 h2
  have key : ∀ x y, charListLe x y = true → charListLe y x = true → x = y := by
    intro x
    induction x with
    | nil =>
      intro y _ g2
      cases y with
      | nil => rfl
      | cons b0 bs => simp [charListLe] at g2
    | cons a0 as ih =>
      intro y g1 g2
      cases y with
      | nil => simp [charListLe] at g1
      | cons b0 bs =>
        rcases lt_trichotomy a0 b0 with hab | hab | hab
        · simp [charListLe, hab, not_lt_of_gt hab] at g2
        · subst hab
          simp only [charListLe, if_neg (lt_irrefl a0)] at g1 g2
          rw [ih bs g1 g2]
        · simp [charListLe, hab, not_lt_of_gt hab] at g1
  have h := key a.toList b.toList h1 h2
  cases a; cases b
  simp only [String.toList] at h
  rw [h]

def sortStrings (l : List String) : List String :=
  l.insertionSort strLe

/-- The sorted distinct tokens of a corpus. -/
def cvVocabRaw (corpus : List String) : List String :=
  sortStrings (dedupFirstAux (corpus.flatMap cvTokenize) [])

/-- Vocabulary produced by `CountVectorizer.fit`: sorted distinct tokens;
`none` models the `ValueError: empty vocabulary` raise. -/
def cvFit (corpus : List String) : Option (List String) :=
  if (cvVocabRaw corpus).isEmpty then none else some (cvVocabRaw corpus)

/-- One row of the count matrix: occurrences of each vocabulary term in
the document. -/
def cvCountRow (vocab : List String) (doc : String) : List ℕ :=
  vocab.map (fun t => (cvTokenize doc).count t)

/-- `count_vectorizer.fit_transform(corpus)` together with
`get_feature_names()`: the count document-term matrix and the terms. -/
def documentTermCount (corpus : List String) :
    Option (List String × List (List ℕ)) :=
  (cvFit corpus).map (fun v => (v, corpus.map (cvCountRow v)))

/-! ### The text normalizer `parse_text`

`parse_text(documents, stemmer, lower, remove_stop_words, ...,
ignore_chars, ...)` iterates over the input sequence and, crucially,
ASSIGNS back into it: `documents[i] = ...` for the ignore-character
removal and the lower-casing.  The embedding therefore returns both the
parsed corpus and the state of the `documents` sequence after the call.

The two dictionary-based stemming algorithms come from the external
`stemming` package and are abstracted as parameters
`p2 ph : String → Except Unit String`; `Except.error ()` models the
`ValueError` some words raise, which `parse_text` catches (the python
dict literal evaluates both stemmer calls before `.get` selects one).
The sklearn stop-word list is likewise a parameter. -/

/-- Python `str.split()`: maximal runs of non-whitespace characters. -/
def pySplit (s : String) : List String :=
  (runsAux (fun c => !c.isWhitespace) s.toList []).map (fun r => String.mk r)

/-- The idiom `' '.join(s.split())` used to collapse excess whitespace. -/
def collapseSpaces (s : String) : String := " ".intercalate (pySplit s)

/-- `s.translate({ord(c): ' ' for c in ignore_chars})`. -/
def pyTranslate (ignore : List Char) (s : String) : String :=
  String.mk (s.toList.map (fun c => if c ∈ ignore then ' ' else c))

/-- Python `str.lower()` (character-wise, as for the ASCII corpora in
use). -/
def pyLower (s : String) : String := String.mk (s.toList.map Char.toLower)

/-- The in-place update applied to `documents[i]`: ignore-character
removal (when `ignore_chars` is nonempty) followed by lower-casing (when
`lower`). -/
def cleanStep (ignore : List Char) (lower : Bool) (doc : String) : String :=
  let d1 := if ignore.isEmpty then doc else collapseSpaces (pyTranslate ignore doc)
  if lower then pyLower d1 else d1

/-- One word under the stemming branch.  The dict literal computes both
stems, `.get(stemmer, word + ' ')` selects by algorithm name with the
unmodified word as default, and a `ValueError` from either stemmer is
caught and the word passed through unstemmed. -/
def stemToken (stemmer : Option String) (p2 ph : String → Except Unit String)
    (w : String) : String :=
  match stemmer with
  | none => w
  | some s =>
    match p2 w, ph w with
    | Except.ok w2, Except.ok wph =>
      if s = "porter2" then w2 else if s = "paicehusk" then wph else w
    | _, _ => w

/-- One document of the parsed corpus: stop-word filtering, per-word
stemming, words joined with trailing blanks, excess whitespace removed. -/
def parseDoc (stopW : List String) (rsw : Bool) (stemmer : Option String)
    (p2 ph : String → Except Unit String) (doc : String) : String :=
  collapseSpaces (String.join
    ((((pySplit doc).filter (fun w => !(rsw && stopW.contains w))).map
      (stemToken stemmer p2 ph)).map (fun w => w ++ " ")))

structure ParseResult where
  parsedDocs : List String
  docsAfter : List String
  deriving DecidableEq

/-- `parse_text`: returns the parsed corpus (empty documents dropped by
`filter(None, ...)`) together with the final state of the mutated
`documents` sequence. -/
def parseText (docs : List String) (stemmer : Option String)
    (p2 ph : String → Except Unit String) (stopW : List String)
    (lower rsw : Bool) (ignore : List Char) : ParseResult :=
  let after := docs.map (cleanStep ignore lower)
  { parsedDocs := (after.map (parseDoc stopW rsw stemmer p2 ph)).filter
      (fun d => !(d = ""))
    docsAfter := after }

/-- The default `ignore_chars` of `parse_text`: punctuation (including
slash, dash, braces and both quote characters) and digits; the single
quote is appended as `Char.ofNat 39`. -/
def ignoreDefault : List Char :=
  ".,:;\x22!?-/()[]\x7b\x7d&%0123456789".toList ++ [Char.ofNat 39]

/-! ### Similarity aggregation

`aggregate_item_similarity` and `aggregate_construct_similarity` share
the same per-pair rule: collect the constituent similarity values over
the full cross-product of the two groups, `np.sort` them, take the final
`max(n_similarities, 2)` values and `np.average` them.
`np.average` of an empty array yields NaN (with a runtime warning), which
`aggregate_construct_similarity` later replaces by 0 via `np.nan_to_num`
while `aggregate_item_similarity` keeps it in its output matrix. -/

/-- `np.sort(..., axis=None)`: ascending sort. -/
def sortQ (l : List ℚ) : List ℚ := l.insertionSort (fun a b => a ≤ b)

/-- `np.average` on a flat array; `none` models the NaN result on an
empty input. -/
def npAverage (l : List ℚ) : Option ℚ :=
  if l.isEmpty then none else some (l.sum / l.length)

/-- `np.sort(vals, axis=None)[-np.max([n_similarities, 2]):]`. -/
def topSims (vals : List ℚ) (n : ℕ) : List ℚ :=
  (sortQ vals).drop (vals.length - max n 2)

/-- One upper-triangle cell of `aggregate_construct_similarity`
(including the final `np.nan_to_num`). -/
def acsCell (vals : List ℚ) (n : ℕ) : ℚ := (npAverage (topSims vals n)).getD 0

/-- One upper-triangle cell of `aggregate_item_similarity` (no
`nan_to_num` there: an empty cross-product leaves NaN). -/
def aisCell (vals : List ℚ) (n : ℕ) : Option ℚ := npAverage (topSims vals n)

/-- `np.where(ids == v)[0]`: positions of `v` in the id list. -/
def npWhereEq (ids : List ℤ) (v : ℤ) : List ℕ :=
  (List.range ids.length).filter (fun p => ids.getD p 0 = v)

/-- The cross-product similarity values of two constructs: the positions
of the items of each construct in `gold_items['VariableId']`, combined
pairwise and read from the constituent similarity matrix. -/
def crossVals (sim : List (List ℚ)) (goldVarIds : List ℤ) (v1 v2 : ℤ) :
    List ℚ :=
  (npWhereEq goldVarIds v1).flatMap (fun i1 =>
    (npWhereEq goldVarIds v2).map (fun i2 => (sim.getD i1 []).getD i2 0))

/-- `np.sort` of the variable ids as done at the top of
`aggregate_construct_similarity`. -/
def sortInts (l : List ℤ) : List ℤ := l.insertionSort (fun a b => a ≤ b)

def buildMatQ (n m : ℕ) (f : ℕ → ℕ → ℚ) : List (List ℚ) :=
  (List.range n).map (fun i => (List.range m).map (f i))

/-- `aggregate_construct_similarity(constituent_similarity, gold_items,
variable_ids, n_similarities)` in the item branch
(`construct_authors=None`): the strict upper triangle holds the top-k
averaged cross-product similarity, all other cells stay 0, and NaN cells
are zeroed by `np.nan_to_num`. -/
def aggregateConstructSimilarity (sim : List (List ℚ)) (goldVarIds : List ℤ)
    (variableIds : List ℤ) (nSim : ℕ) : List (List ℚ) :=
  let v := sortInts variableIds
  buildMatQ v.length v.length (fun i j =>
    if i < j then acsCell (crossVals sim goldVarIds (v.getD i 0) (v.getD j 0)) nSim
    else 0)

/-- Cosine similarity step of `aggregate_item_similarity`:
`term_similarity = term_vectors @ term_vectors.T` entrywise. -/
def dotQ (u v : List ℚ) : ℚ := (List.zipWith (fun a b => a * b) u v).sum

def termSimilarity (termVectors : List (List ℚ)) (i j : ℕ) : ℚ :=
  dotQ (termVectors.getD i []) (termVectors.getD j [])

/-- `np.where(dt_matrix[ind] != 0)[0]`. -/
def nonzeroIdx (row : List ℚ) : List ℕ :=
  (List.range row.length).filter (fun t => !(row.getD t 0 = 0))

/-- The term-pair similarity values between two items: nonzero term
positions of each item row, combined pairwise. -/
def itemCrossVals (dtMatrix termVectors : List (List ℚ)) (i1 i2 : ℕ) :
    List ℚ :=
  (nonzeroIdx (dtMatrix.getD i1 [])).flatMap (fun a =>
    (nonzeroIdx (dtMatrix.getD i2 [])).map (fun b => termSimilarity termVectors a b))

/-- NaN-propagating addition used when mirroring the upper triangle
(`item_similarity + item_similarity.T`). -/
def addOptQ : Option ℚ → Option ℚ → Option ℚ
  | some a, some b => some (a + b)
  | _, _ => none

def buildMatO (n m : ℕ) (f : ℕ → ℕ → Option ℚ) : List (List (Option ℚ)) :=
  (List.range n).map (fun i => (List.range m).map (f i))

/-- `aggregate_item_similarity(dt_matrix, term_vectors, n_similarities)`:
upper-triangle top-k averaging of term similarities, mirrored by adding
the transpose, diagonal then forced to 1.  Entries are `Option ℚ`, with
`none` the NaN produced by an empty cross-product. -/
def aggregateItemSimilarity (dtMatrix termVectors : List (List ℚ))
    (nSim : ℕ) : List (List (Option ℚ)) :=
  let n := dtMatrix.length
  let upper := buildMatO n n (fun i j =>
    if i < j then aisCell (itemCrossVals dtMatrix termVectors i j) nSim
    else some 0)
  let mirrored := buildMatO n n (fun i j =>
    addOptQ ((upper.getD i []).getD j none) ((upper.getD j []).getD i none))
  buildMatO n n (fun i j =>
    if i = j then some 1 else (mirrored.getD i []).getD j none)

/-- Default value read of a maximum: `l.maximum` with bottom mapped to 0,
used to state the top-2 rule (for a nonempty list this is the greatest
element). -/
def maxD (l : List ℚ) : ℚ := l.maximum.unbot' 0

/-! ### The gold identity matrix

`recreate_construct_identity_gold(gold_standard, pool_ids, full_var_ids)`
keyed positionally: the gold standard is the list of
`(Poolid, VariableID)` rows, and matrix cells are addressed through the
position of a variable id in `variable_ids` (the pandas label lookup). -/

/-- `gold_standard['VariableID'][gold_standard['Poolid'] == pool_id]`. -/
def poolMembers (goldStandard : List (ℤ × ℤ)) (poolId : ℤ) : List ℤ :=
  (goldStandard.filter (fun r => r.1 = poolId)).map (fun r => r.2)

/-- All pairs `(l[ind_1], l[ind_2])` with `ind_1 < ind_2`, in loop order. -/
def upperPairs : List ℤ → List (ℤ × ℤ)
  | [] => []
  | x :: xs => xs.map (fun y => (x, y)) ++ upperPairs xs

/-- Write 1 into cell `(r, c)` (no-op out of range, which the membership
hypotheses of the theorems rule out). -/
def setCell (m : List (List ℚ)) (r c : ℕ) : List (List ℚ) :=
  m.set r ((m.getD r []).set c 1)

/-- The cell each pool pair writes: `indices = np.sort([id1, id2])`,
column label `indices[1]`, row label `indices[0]`, both resolved to
positions in `variable_ids`. -/
def goldPairCells (goldStandard : List (ℤ × ℤ)) (poolIds : List ℤ)
    (variableIds : List ℤ) : List (ℕ × ℕ) :=
  poolIds.flatMap (fun p =>
    (upperPairs (poolMembers goldStandard p)).map (fun q =>
      (variableIds.indexOf (min q.1 q.2), variableIds.indexOf (max q.1 q.2))))

def zerosQ (n m : ℕ) : List (List ℚ) := List.replicate n (List.replicate m 0)

def fillUpper (cells : List (ℕ × ℕ)) (m0 : List (List ℚ)) : List (List ℚ) :=
  cells.foldl (fun m q => setCell m q.1 q.2) m0

def matAddQ (a b : List (List ℚ)) : List (List ℚ) :=
  List.zipWith (List.zipWith (fun x y => x + y)) a b

def transposeSq (m : List (List ℚ)) (n : ℕ) : List (List ℚ) :=
  buildMatQ n n (fun i j => (m.getD j []).getD i 0)

/-- `recreate_construct_identity_gold` with explicit `full_var_ids`:
zero matrix, upper-triangular pool fills, add the transpose, then
`np.fill_diagonal(..., 1)`. -/
def recreateConstructIdentityGold (goldStandard : List (ℤ × ℤ))
    (poolIds : List ℤ) (variableIds : List ℤ) : List (List ℚ) :=
  let n := variableIds.length
  let upper := fillUpper (goldPairCells goldStandard poolIds variableIds)
    (zerosQ n n)
  let mirrored := matAddQ upper (transposeSq upper n)
  mirrored.mapIdx (fun i row => row.set i 1)

/-! ### `term_vectors_from_dict`

The vector dictionary is an association list (python dict); the
dimensionality probe is `len(next(iter(vector_dict.values())))`, which
raises `StopIteration` on an empty dict — modelled by `none`. -/

/-- The zero-filled lookup matrix and the OOV counter of
`term_vectors_from_dict`, before the optional normalization. -/
def termVectorsRaw (vectorDict : List (String × List ℚ))
    (targetTerms : List String) : Option (List (List ℚ) × ℕ) :=
  match vectorDict.head? with
  | none => none
  | some h =>
    some (targetTerms.map (fun t =>
            match vectorDict.lookup t with
            | some v => v
            | none => List.replicate h.2.length 0),
          (targetTerms.filter (fun t => (vectorDict.lookup t).isNone)).length)

/-! ### L2 row normalization and the weighted document-term matrices

Real-number arithmetic models the floating point of numpy; `Real.log 0`
is 0 in mathlib, which coincides with the explicit
`log_matrix[np.isneginf(log_matrix)] = 0` repair in the sources. -/

noncomputable def sumSq (l : List ℝ) : ℝ := (l.map (fun x => x ^ 2)).sum

/-- `sklearn.preprocessing.Normalizer(norm='l2')` on one row: rows of
zero norm are left untouched, others are divided by their L2 norm. -/
noncomputable def l2NormalizeRow (r : List ℝ) : List ℝ :=
  if sumSq r = 0 then r else r.map (fun x => x / Real.sqrt (sumSq r))

/-- `term_vectors_from_dict(vector_dict, target_terms, normalize)`: the
zero-filled lookup matrix cast to floats, rows L2-normalized when
requested, with the OOV count. -/
noncomputable def termVectorsFromDict (vectorDict : List (String × List ℚ))
    (targetTerms : List String) (normalize : Bool) :
    Option (List (List ℝ) × ℕ) :=
  (termVectorsRaw vectorDict targetTerms).map (fun pr =>
    (pr.1.map (fun r =>
      let rr := r.map (fun q => (q : ℝ))
      if normalize then l2NormalizeRow rr else rr), pr.2))

/-- Column sum `np.sum(dt_matrix, axis=0)` at term position `t`. -/
def colSumM (m : List (List ℕ)) (t : ℕ) : ℕ :=
  (m.map (fun r => r.getD t 0)).sum

/-- Document frequency of term position `t` (sklearn tf-idf). -/
def docFreqM (m : List (List ℕ)) (t : ℕ) : ℕ :=
  (m.filter (fun r => !(r.getD t 0 = 0))).length

/-- Smoothed idf of sklearn: `ln((1+n)/(1+df)) + 1`. -/
noncomputable def idfSmooth (n df : ℕ) : ℝ :=
  Real.log ((1 + (n : ℝ)) / (1 + (df : ℝ))) + 1

/-- `p_matrix` entry: count divided by its column total. -/
noncomputable def pEntry (m : List (List ℕ)) (d t : ℕ) : ℝ :=
  (((m.getD d []).getD t 0 : ℕ) : ℝ) / (colSumM m t : ℝ)

/-- Per-term global weight of the `is_constructs.py` log-entropy variant:
`1 + sum_d p * ln(p + 1) / ln(n_docs + 1)`  (the `+ 1` inside the inner
logarithm is the deviation from the gensim source noted in the code). -/
noncomputable def globalWeightIs (m : List (List ℕ)) (t : ℕ) : ℝ :=
  1 + ((List.range m.length).map (fun d =>
        pEntry m d t * Real.log (pEntry m d t + 1))).sum /
      Real.log ((m.length : ℝ) + 1)

/-- Per-term global weight of the `myLSA.py` module-level variant:
`1 + sum_d p * ln(p) / ln(n_docs + 1)` with the `-inf` of `ln 0`
replaced by 0 (which `Real.log 0 = 0` renders automatically). -/
noncomputable def globalWeightMy (m : List (List ℕ)) (t : ℕ) : ℝ :=
  1 + ((List.range m.length).map (fun d =>
        pEntry m d t * Real.log (pEntry m d t))).sum /
      Real.log ((m.length : ℝ) + 1)

/-- Unnormalized log-entropy matrix of `is_constructs.py`:
`dt_matrix * log(dt_matrix + 1) * global_weight` entrywise
(`local_weight_matrix`, `global_weight_matrix`, `final_weight_matrix`,
`dt_matrix_log` fused per cell, as the numpy elementwise ops define). -/
noncomputable def dtMatrixLogIs (m : List (List ℕ)) (w : ℕ) : List (List ℝ) :=
  m.map (fun row => (List.range w).map (fun t =>
    ((row.getD t 0 : ℕ) : ℝ) * Real.log (((row.getD t 0 : ℕ) : ℝ) + 1) *
      globalWeightIs m t))

/-- Unnormalized log-entropy matrix of `myLSA.py` (same shape, `ln p`
inside the entropy sum). -/
noncomputable def dtMatrixLogMy (m : List (List ℕ)) (w : ℕ) : List (List ℝ) :=
  m.map (fun row => (List.range w).map (fun t =>
    ((row.getD t 0 : ℕ) : ℝ) * Real.log (((row.getD t 0 : ℕ) : ℝ) + 1) *
      globalWeightMy m t))

/-- `dt_matrix_log_l2` of `is_constructs.py`: log-entropy weights then
`Normalizer(norm='l2')`. -/
noncomputable def dtMatrixLogL2Is (m : List (List ℕ)) (w : ℕ) : List (List ℝ) :=
  (dtMatrixLogIs m w).map l2NormalizeRow

/-- `dt_matrix_log_l2` of `myLSA.py`. -/
noncomputable def dtMatrixLogL2My (m : List (List ℕ)) (w : ℕ) : List (List ℝ) :=
  (dtMatrixLogMy m w).map l2NormalizeRow

/-- The count matrix cast to floats, at fixed row width `w`. -/
noncomputable def countRowR (m : List (List ℕ)) (d w : ℕ) : List ℝ :=
  (List.range w).map (fun t => (((m.getD d []).getD t 0 : ℕ) : ℝ))

/-- One tf-idf row before normalization: `count * idf` (sklearn
`TfidfVectorizer(norm='l2', use_idf=True, smooth_idf=True)`). -/
noncomputable def tfidfRow (m : List (List ℕ)) (d w : ℕ) : List ℝ :=
  (List.range w).map (fun t =>
    (((m.getD d []).getD t 0 : ℕ) : ℝ) * idfSmooth m.length (docFreqM m t))

inductive DtmMode where
  | count
  | l2
  | tfidfL2
  | logL2
  deriving DecidableEq

/-- The four weighting branches of `document_term_cooccurrence`, applied
to the count matrix of width `w`. -/
noncomputable def weightMatrix (mode : DtmMode) (m : List (List ℕ)) (w : ℕ) :
    List (List ℝ) :=
  match mode with
  | DtmMode.count => (List.range m.length).map (fun d => countRowR m d w)
  | DtmMode.l2 =>
      (List.range m.length).map (fun d => l2NormalizeRow (countRowR m d w))
  | DtmMode.tfidfL2 =>
      (List.range m.length).map (fun d => l2NormalizeRow (tfidfRow m d w))
  | DtmMode.logL2 => dtMatrixLogL2Is m w

/-- `document_term_cooccurrence(corpus, processing)`: count vectorizing
then the selected weighting; `none` is the empty-vocabulary raise. -/
noncomputable def documentTermCooccurrence (corpus : List String)
    (mode : DtmMode) : Option (List (List ℝ) × List String) :=
  (documentTermCount corpus).map (fun pr =>
    (weightMatrix mode pr.2 pr.1.length, pr.1))

/-- Modelled from the spec, §4.2: for `log_l2` the cell value before
row normalization is
`count * local_weight * global_weight` with `local_weight = ln(count+1)`
and `global_weight = 1 + (sum_doc p * ln(p+1)) / ln(n_docs+1)` where
`p = count / column_total`.  Used to check the source pipeline against
the words of the spec. -/
noncomputable def logL2SpecCell (m : List (List ℕ)) (d t : ℕ) : ℝ :=
  let count : ℝ := (((m.getD d []).getD t 0 : ℕ) : ℝ)
  let localWeight : ℝ := Real.log (count + 1)
  let globalWeight : ℝ :=
    1 + ((List.range m.length).map (fun dd =>
          let p : ℝ := (((m.getD dd []).getD t 0 : ℕ) : ℝ) / (colSumM m t : ℝ)
          p * Real.log (p + 1))).sum / Real.log ((m.length : ℝ) + 1)
  count * localWeight * globalWeight

/-! ## Theorems -/

/-! ### Plumbing lemmas -/

theorem buildMatQ_getD (n m : ℕ) (f : ℕ → ℕ → ℚ) (i j : ℕ) (hi : i < n)
    (hj : j < m) : ((buildMatQ n m f).getD i []).getD j 0 = f i j := by
  simp [buildMatQ, List.getD_eq_getElem?_getD, List.getElem?_map,
    List.getElem?_range, hi, hj]

theorem mem_dedupFirstAux (x : String) :
    ∀ (l seen : List String), x ∈ dedupFirstAux l seen ↔ (x ∈ l ∧ x ∉ seen) := by
  intro l
  induction l with
  | nil => intro seen; simp [dedupFirstAux]
  | cons y ys ih =>
    intro seen
    by_cases hy : y ∈ seen
    · rw [dedupFirstAux, if_pos hy, ih seen, List.mem_cons]
      constructor
      · rintro ⟨h1, h2⟩
        exact ⟨Or.inr h1, h2⟩
      · rintro ⟨h1 | h1, h2⟩
        · subst h1; exact absurd hy h2
        · exact ⟨h1, h2⟩
    · rw [dedupFirstAux, if_neg hy]
      simp only [List.mem_cons, ih (y :: seen)]
      constructor
      · rintro (rfl | ⟨h1, h2⟩)
        · exact ⟨Or.inl rfl, hy⟩
        · exact ⟨Or.inr h1, fun hc => h2 (Or.inr hc)⟩
      · rintro ⟨h1 | h1, h2⟩
        · exact Or.inl h1
        · by_cases hxy : x = y
          · exact Or.inl hxy
          · exact Or.inr ⟨h1, fun hc => hc.elim hxy h2⟩

theorem nodup_dedupFirstAux :
    ∀ (l seen : List String), (dedupFirstAux l seen).Nodup := by
  intro l
  induction l with
  | nil => intro seen; simp [dedupFirstAux]
  | cons y ys ih =>
    intro seen
    by_cases hy : y ∈ seen
    · rw [dedupFirstAux, if_pos hy]; exact ih seen
    · rw [dedupFirstAux, if_neg hy]
      refine List.Nodup.cons ?_ (ih (y :: seen))
      intro hc
      exact ((mem_dedupFirstAux y ys (y :: seen)).mp hc).2 (List.mem_cons_self y seen)

/-! ### Claim C3: the CountVectorizer vocabulary -/

/-- C3 (counterexample): the vocabulary is NOT the verbatim set of
space-separated tokens.  On the corpus from the claim, `["a b", "b c"]`,
every token has length 1, the default token pattern discards all of
them, and `fit_transform` raises on the empty vocabulary instead of
returning vocabulary `[a, b, c]` with matrix `[[1,1,0],[0,1,1]]`. -/
theorem documentTermCount_single_char_counterexample :
    documentTermCount ["a b", "b c"] = none ∧
    documentTermCount ["a b", "b c"] ≠
      some (["a", "b", "c"], [[1, 1, 0], [0, 1, 1]]) := by
  constructor
  · decide
  · decide

/-- Unpacking a successful `documentTermCount` call: the vocabulary is
the sorted distinct token list and the matrix rows are the per-document
counts. -/
theorem documentTermCount_eq (corpus : List String) (vocab : List String)
    (m : List (List ℕ)) (h : documentTermCount corpus = some (vocab, m)) :
    vocab = cvVocabRaw corpus ∧ m = corpus.map (cvCountRow vocab) := by
  have hfit : cvFit corpus = some vocab ∧ m = corpus.map (cvCountRow vocab) := by
    unfold documentTermCount at h
    cases hc : cvFit corpus with
    | none => rw [hc] at h; simp at h
    | some v =>
      rw [hc] at h
      have h2 := Option.some.inj h
      injection h2 with hv hm2
      subst hv
      subst hm2
      exact ⟨rfl, rfl⟩
  obtain ⟨hfit, hm⟩ := hfit
  refine ⟨?_, hm⟩
  unfold cvFit at hfit
  by_cases he : (cvVocabRaw corpus).isEmpty
  · rw [if_pos he] at hfit; cases hfit
  · rw [if_neg he] at hfit; exact (Option.some.inj hfit).symm

/-- Every token of every document of the corpus is in the vocabulary. -/
theorem token_mem_cvVocabRaw (corpus : List String) (doc : String)
    (hdoc : doc ∈ corpus) (tok : String) (htok : tok ∈ cvTokenize doc) :
    tok ∈ cvVocabRaw corpus := by
  have hflat : tok ∈ corpus.flatMap cvTokenize :=
    List.mem_flatMap.mpr ⟨doc, hdoc, htok⟩
  have hdfa : tok ∈ dedupFirstAux (corpus.flatMap cvTokenize) [] :=
    (mem_dedupFirstAux tok _ []).mpr ⟨hflat, by simp⟩
  exact (List.perm_insertionSort strLe _).symm.subset hdfa

/-- C3 (amended): the vocabulary of `document_term_cooccurrence` is the
sorted list of the distinct tokens matched by the default sklearn token
pattern — maximal word-character runs of length at least two — and each
matrix row counts those tokens per document. -/
theorem documentTermCount_spec (corpus : List String) (vocab : List String)
    (m : List (List ℕ)) (h : documentTermCount corpus = some (vocab, m)) :
    List.Perm vocab (corpus.flatMap cvTokenize).dedup ∧
    vocab.Sorted strLe ∧
    m = corpus.map (cvCountRow vocab) := by
  obtain ⟨hvocab, hm⟩ := documentTermCount_eq corpus vocab m h
  subst hvocab
  refine ⟨?_, List.sorted_insertionSort strLe _, hm⟩
  have h1 : List.Perm (cvVocabRaw corpus)
      (dedupFirstAux (corpus.flatMap cvTokenize) []) :=
    List.perm_insertionSort strLe _
  refine h1.trans ?_
  refine (List.perm_ext_iff_of_nodup (nodup_dedupFirstAux _ _) (List.nodup_dedup _)).mpr ?_
  intro a
  rw [mem_dedupFirstAux, List.mem_dedup]
  simp

/-- C3 (amended, concrete round-trip): hypotheses of
`documentTermCount_spec` discharged on the two-character corpus
`["aa bb", "bb cc"]`, whose DTM is exactly `[[1,1,0],[0,1,1]]`. -/
theorem documentTermCount_spec_witness :
    documentTermCount ["aa bb", "bb cc"] =
      some (["aa", "bb", "cc"], [[1, 1, 0], [0, 1, 1]]) ∧
    (List.Perm (["aa", "bb", "cc"] : List String)
        ((["aa bb", "bb cc"] : List String).flatMap cvTokenize).dedup ∧
      (["aa", "bb", "cc"] : List String).Sorted strLe ∧
      ([[1, 1, 0], [0, 1, 1]] : List (List ℕ)) =
        (["aa bb", "bb cc"] : List String).map (cvCountRow ["aa", "bb", "cc"])) :=
  ⟨by decide, documentTermCount_spec ["aa bb", "bb cc"] _ _ (by decide)⟩

/-! ### Claim C10: empty vector dictionary -/

/-- C10: `term_vectors_from_dict` with an empty vector dictionary fails
at the dimensionality probe `next(iter(vector_dict.values()))` for every
target list, instead of returning a matrix. -/
theorem termVectorsRaw_empty_dict (targetTerms : List String) :
    termVectorsRaw [] targetTerms = none := rfl

/-! ### Claim C8: unknown stemmer selectors -/

/-- C8: for any stemmer selector other than porter2 and paicehusk,
`parse_text` behaves exactly as with no stemmer: every token passes
through unstemmed and no exception escapes (a `ValueError` raised while
the dict literal evaluates the two known stemmers is caught). -/
theorem parseText_unknown_stemmer (docs : List String) (s : String)
    (p2 ph : String → Except Unit String) (stopW : List String)
    (lower rsw : Bool) (ignore : List Char)
    (h1 : s ≠ "porter2") (h2 : s ≠ "paicehusk") :
    parseText docs (some s) p2 ph stopW lower rsw ignore =
      parseText docs none p2 ph stopW lower rsw ignore := by
  have hst : stemToken (some s) p2 ph = stemToken none p2 ph := by
    funext w
    unfold stemToken
    cases p2 w <;> cases ph w <;> simp [h1, h2]
  unfold parseText parseDoc
  rw [hst]

/-- C8 (witness): the selector `lovins` (present in a commented-out line
of the source) passes tokens through unchanged. -/
theorem parseText_unknown_stemmer_witness :
    ("lovins" ≠ "porter2") ∧ ("lovins" ≠ "paicehusk") ∧
    parseText ["Aa bb"] (some "lovins") (fun w => Except.ok w)
        (fun w => Except.ok w) [] true true ignoreDefault =
      parseText ["Aa bb"] none (fun w => Except.ok w)
        (fun w => Except.ok w) [] true true ignoreDefault :=
  ⟨by decide, by decide,
    parseText_unknown_stemmer ["Aa bb"] "lovins" (fun w => Except.ok w)
      (fun w => Except.ok w) [] true true ignoreDefault (by decide) (by decide)⟩

/-! ### Claim C9: parse_text and its input sequence -/

/-- C9 (counterexample): `parse_text` DOES mutate the documents sequence
passed to it: with the default configuration the element `"A"` is
lower-cased in place, so after the call the input no longer equals its
value before the call. -/
theorem parseText_mutates_input :
    (parseText ["A"] none (fun w => Except.ok w) (fun w => Except.ok w)
        [] true true ignoreDefault).docsAfter ≠ ["A"] := by
  decide

/-- C9 (amended): `parse_text` overwrites every element of the input
sequence with its ignore-character-stripped (when `ignore_chars` is
nonempty), lower-cased (when `lower=True`) form; only with
`lower=False` and empty `ignore_chars` is the input left unchanged. -/
theorem parseText_docsAfter (docs : List String) (stemmer : Option String)
    (p2 ph : String → Except Unit String) (stopW : List String)
    (lower rsw : Bool) (ignore : List Char) :
    (parseText docs stemmer p2 ph stopW lower rsw ignore).docsAfter =
      docs.map (cleanStep ignore lower) ∧
    (parseText docs stemmer p2 ph stopW false rsw []).docsAfter = docs := by
  constructor
  · rfl
  · show docs.map (cleanStep [] false) = docs
    have : cleanStep [] false = id := by
      funext doc
      simp [cleanStep]
    rw [this, List.map_id]

/-! ### Claim C2: short cross-products in the aggregators -/

/-- C2 (counterexample): with `n_similarities = 3` and a cross-product of
only the two values 1/5 and 4/5, `aggregate_construct_similarity` stores
their MEAN 1/2, not the maximum 4/5 that the claim requires for a
cross-product shorter than `n_similarities`. -/
theorem aggregate_short_cross_counterexample :
    ((aggregateConstructSimilarity
        [[1, 0, 1/5], [0, 1, 4/5], [1/5, 4/5, 1]] [1, 1, 2] [1, 2] 3).getD
          0 []).getD 1 0 = 1/2 ∧
    (crossVals [[1, 0, 1/5], [0, 1, 4/5], [1/5, 4/5, 1]] [1, 1, 2] 1 2).length
      = 2 ∧
    maxD (crossVals [[1, 0, 1/5], [0, 1, 4/5], [1/5, 4/5, 1]] [1, 1, 2] 1 2)
      = 4/5 ∧
    ¬((1 : ℚ)/2 = 4/5) := by
  refine ⟨?_, ?_, ?_, by norm_num⟩
  · norm_num [aggregateConstructSimilarity, buildMatQ, sortInts, acsCell,
      crossVals, npWhereEq, topSims, sortQ, npAverage, List.insertionSort,
      List.orderedInsert, List.range_succ]
  · norm_num [crossVals, npWhereEq, List.range_succ]
  · have : crossVals [[1, 0, 1/5], [0, 1, 4/5], [1/5, 4/5, 1]] [1, 1, 2] 1 2
        = [1/5, 4/5] := by
      norm_num [crossVals, npWhereEq, List.range_succ]
    rw [this]
    have hm : List.maximum [(1 : ℚ)/5, 4/5] = some ((4 : ℚ)/5) := by
      norm_num [List.maximum, List.argmax, List.foldl, List.argAux]
    rw [maxD, hm]
    rfl

/-- C2 (amended): when the cross-product yields fewer values than
`max(n_similarities, 2)`, both aggregators average ALL available values —
which coincides with the maximum exactly when a single value exists; with
no value at all, `aggregate_construct_similarity` stores 0 (its final
`np.nan_to_num`) while `aggregate_item_similarity` leaves the NaN in its
output; neither function raises.  The last conjunct places the cell rule
inside the construct aggregator. -/
theorem aggregate_short_cross (vals : List ℚ) (n : ℕ)
    (hlen : vals.length < max n 2) :
    (vals = [] → acsCell vals n = 0 ∧ aisCell vals n = none) ∧
    (vals ≠ [] → acsCell vals n = vals.sum / vals.length ∧
      aisCell vals n = some (vals.sum / vals.length)) ∧
    (vals.length = 1 → acsCell vals n = maxD vals) ∧
    (∀ (sim : List (List ℚ)) (gold varIds : List ℤ) (i j : ℕ), i < j →
      j < (sortInts varIds).length →
      ((aggregateConstructSimilarity sim gold varIds n).getD i []).getD j 0 =
        acsCell (crossVals sim gold ((sortInts varIds).getD i 0)
          ((sortInts varIds).getD j 0)) n) := by
  have hts : topSims vals n = sortQ vals := by
    unfold topSims
    rw [Nat.sub_eq_zero_of_le (le_of_lt hlen), List.drop_zero]
  have hperm : List.Perm (sortQ vals) vals :=
    List.perm_insertionSort (fun a b => a ≤ b) vals
  refine ⟨?_, ?_, ?_, ?_⟩
  · rintro rfl
    constructor <;>
      simp [acsCell, aisCell, topSims, sortQ, npAverage, List.insertionSort]
  · intro hne
    have hnil : sortQ vals ≠ [] := by
      intro hc
      apply hne
      have hl := hperm.length_eq
      rw [hc] at hl
      exact List.length_eq_zero.mp hl.symm
    unfold acsCell aisCell npAverage
    rw [hts, if_neg (by simpa using hnil), hperm.sum_eq, hperm.length_eq]
    exact ⟨rfl, rfl⟩
  · intro h1
    obtain ⟨a, rfl⟩ : ∃ a, vals = [a] := by
      cases vals with
      | nil => simp at h1
      | cons a t =>
        cases t with
        | nil => exact ⟨a, rfl⟩
        | cons b t2 => simp at h1
    have : maxD [a] = a := by
      simp [maxD, List.maximum_singleton]
    rw [this]
    unfold acsCell npAverage
    rw [hts]
    show (some (([a].sum : ℚ) / ([a].length : ℕ))).getD 0 = a
    simp
  · intro sim gold varIds i j hij hj
    simp only [aggregateConstructSimilarity]
    rw [buildMatQ_getD _ _ _ i j (lt_trans hij hj) hj, if_pos hij]

/-- C2 (amended, witness): the short cross-product `[3/10]` with
`n_similarities = 5`. -/
theorem aggregate_short_cross_witness :
    ([(3 : ℚ)/10].length < max 5 2) ∧
    (([(3 : ℚ)/10] = [] → acsCell [(3 : ℚ)/10] 5 = 0 ∧
        aisCell [(3 : ℚ)/10] 5 = none) ∧
      ([(3 : ℚ)/10] ≠ [] → acsCell [(3 : ℚ)/10] 5 =
          [(3 : ℚ)/10].sum / [(3 : ℚ)/10].length ∧
        aisCell [(3 : ℚ)/10] 5 = some ([(3 : ℚ)/10].sum / [(3 : ℚ)/10].length)) ∧
      ([(3 : ℚ)/10].length = 1 → acsCell [(3 : ℚ)/10] 5 = maxD [(3 : ℚ)/10]) ∧
      (∀ (sim : List (List ℚ)) (gold varIds : List ℤ) (i j : ℕ), i < j →
        j < (sortInts varIds).length →
        ((aggregateConstructSimilarity sim gold varIds 5).getD i []).getD j 0 =
          acsCell (crossVals sim gold ((sortInts varIds).getD i 0)
            ((sortInts varIds).getD j 0)) 5)) :=
  ⟨by decide, aggregate_short_cross [(3 : ℚ)/10] 5 (by decide)⟩

/-! ### Claim C1: the top-2 averaging rule -/

theorem drop_two_of_len (s : List ℚ) (k : ℕ) (hk : s.length = k + 2)
    (h0 : k < s.length) (h1 : k + 1 < s.length) :
    s.drop k = [s.get ⟨k, h0⟩, s.get ⟨k + 1, h1⟩] := by
  rw [List.drop_eq_getElem_cons h0, List.drop_eq_getElem_cons h1,
    List.drop_eq_nil_of_le (by omega)]
  simp [List.get_eq_getElem]

theorem maximum_of_sorted_last (s : List ℚ) (k : ℕ)
    (hs : s.Sorted (fun a b : ℚ => a ≤ b)) (hk : s.length = k + 1)
    (hlt : k < s.length) :
    s.maximum = (s.get ⟨k, hlt⟩ : ℚ) := by
  rw [List.maximum_eq_coe_iff]
  refine ⟨s.get_mem k hlt, ?_⟩
  intro x hx
  obtain ⟨i, hi⟩ := List.mem_iff_get.mp hx
  rw [← hi]
  refine hs.rel_get_of_le ?_
  have hiv := i.isLt
  exact Fin.mk_le_mk.mpr (by omega) |>.trans_eq rfl

theorem erase_append_singleton (u : List ℚ) (b : ℚ) :
    List.Perm ((u ++ [b]).erase b) u := by
  have hmem : b ∈ u ++ [b] := by simp
  have hp1 : List.Perm (u ++ [b]) (b :: (u ++ [b]).erase b) :=
    List.perm_cons_erase hmem
  have hp2 : List.Perm (u ++ [b]) (b :: u) := List.perm_append_singleton b u
  exact (List.perm_cons b).mp (hp1.symm.trans hp2)

/-- Dropping all but the last two entries of the ascending sort and
averaging equals the mean of the maximum and the maximum of the rest. -/
theorem acsCell_top2 (l : List ℚ) (h2 : 2 ≤ l.length) :
    acsCell l 2 = (maxD l + maxD (l.erase (maxD l))) / 2 := by
  obtain ⟨k, hk⟩ : ∃ k, l.length = k + 2 := ⟨l.length - 2, by omega⟩
  have hperm : List.Perm (sortQ l) l :=
    List.perm_insertionSort (fun a b => a ≤ b) l
  have hsort : (sortQ l).Sorted (fun a b : ℚ => a ≤ b) :=
    List.sorted_insertionSort (fun a b => a ≤ b) l
  have hslen : (sortQ l).length = k + 2 := by rw [hperm.length_eq, hk]
  have h0 : k < (sortQ l).length := by omega
  have h1 : k + 1 < (sortQ l).length := by omega
  set s := sortQ l with hsdef
  set a := s.get ⟨k, h0⟩ with ha
  set b := s.get ⟨k + 1, h1⟩ with hb
  have hmaxs : s.maximum = (b : WithBot ℚ) :=
    maximum_of_sorted_last s (k + 1) hsort (by omega) h1
  have hmaxl : l.maximum = (b : WithBot ℚ) := by
    rw [List.maximum_eq_coe_iff] at hmaxs ⊢
    exact ⟨hperm.subset hmaxs.1, fun x hx => hmaxs.2 x (hperm.symm.subset hx)⟩
  have hmaxD : maxD l = b := by rw [maxD, hmaxl]; rfl
  have hdropb : s.drop (k + 1) = [b] := by
    rw [List.drop_eq_getElem_cons h1, List.drop_eq_nil_of_le (by omega)]
    simp [hb, List.get_eq_getElem]
  have hsplit : s = s.take (k + 1) ++ [b] := by
    conv_lhs => rw [← List.take_append_drop (k + 1) s]
    rw [hdropb]
  set u := s.take (k + 1) with hu
  have hulen : u.length = k + 1 := by rw [hu, List.length_take]; omega
  have huk : k < u.length := by omega
  have hget_u : u.get ⟨k, huk⟩ = a := by
    simp [hu, ha, List.get_eq_getElem, List.getElem_take]
  have hperm_u : List.Perm (l.erase b) u := by
    have h3 : List.Perm (l.erase b) (s.erase b) := (hperm.erase b).symm
    rw [hsplit] at h3
    exact h3.trans (erase_append_singleton u b)
  have hmax_u : u.maximum = (a : WithBot ℚ) := by
    rw [maximum_of_sorted_last u k (hsort.sublist (List.take_sublist _ _))
      hulen huk, hget_u]
  have hmax_e : (l.erase b).maximum = (a : WithBot ℚ) := by
    rw [List.maximum_eq_coe_iff] at hmax_u ⊢
    exact ⟨hperm_u.symm.subset hmax_u.1,
      fun x hx => hmax_u.2 x (hperm_u.subset hx)⟩
  have hmaxD_e : maxD (l.erase (maxD l)) = a := by
    rw [hmaxD, maxD, hmax_e]; rfl
  have hts : topSims l 2 = [a, b] := by
    unfold topSims
    rw [show l.length - max 2 2 = k by omega]
    exact drop_two_of_len s k hslen h0 h1
  rw [acsCell, hts, hmaxD_e, hmaxD]
  unfold npAverage
  norm_num
  ring

/-- C1: with `n_similarities = 2`, every strict-upper-triangle entry of
`aggregate_construct_similarity` is the arithmetic mean of the top two
constituent-pair similarity values drawn from the full cross-product of
the two constructs (expressed as the maximum plus the maximum of the
remaining values, halved). -/
theorem constructSimilarity_top2_mean (sim : List (List ℚ))
    (gold varIds : List ℤ) (i j : ℕ) (hij : i < j)
    (hj : j < (sortInts varIds).length)
    (h2 : 2 ≤ (crossVals sim gold ((sortInts varIds).getD i 0)
        ((sortInts varIds).getD j 0)).length) :
    ((aggregateConstructSimilarity sim gold varIds 2).getD i []).getD j 0 =
      (maxD (crossVals sim gold ((sortInts varIds).getD i 0)
          ((sortInts varIds).getD j 0)) +
        maxD ((crossVals sim gold ((sortInts varIds).getD i 0)
            ((sortInts varIds).getD j 0)).erase
          (maxD (crossVals sim gold ((sortInts varIds).getD i 0)
            ((sortInts varIds).getD j 0))))) / 2 := by
  simp only [aggregateConstructSimilarity]
  rw [buildMatQ_getD _ _ _ i j (lt_trans hij hj) hj, if_pos hij]
  exact acsCell_top2 _ h2

/-- C1 (witness): the claimed concrete instance — constructs
`{1: [10, 20], 2: [30]}` become positions `[0, 1]` and `[2]` of
`gold_items`, similarity(10,30) = 1/2 and similarity(20,30) = 9/10, and
the aggregated similarity of the two constructs is `(1/2 + 9/10)/2 =
7/10`. -/
theorem constructSimilarity_top2_mean_witness :
    (0 : ℕ) < 1 ∧ 1 < (sortInts [1, 2]).length ∧
    2 ≤ (crossVals [[1, 0, 1/2], [0, 1, 9/10], [1/2, 9/10, 1]] [1, 1, 2]
        ((sortInts [1, 2]).getD 0 0) ((sortInts [1, 2]).getD 1 0)).length ∧
    ((aggregateConstructSimilarity [[1, 0, 1/2], [0, 1, 9/10], [1/2, 9/10, 1]]
          [1, 1, 2] [1, 2] 2).getD 0 []).getD 1 0 =
      (maxD (crossVals [[1, 0, 1/2], [0, 1, 9/10], [1/2, 9/10, 1]] [1, 1, 2]
          ((sortInts [1, 2]).getD 0 0) ((sortInts [1, 2]).getD 1 0)) +
        maxD ((crossVals [[1, 0, 1/2], [0, 1, 9/10], [1/2, 9/10, 1]] [1, 1, 2]
            ((sortInts [1, 2]).getD 0 0) ((sortInts [1, 2]).getD 1 0)).erase
          (maxD (crossVals [[1, 0, 1/2], [0, 1, 9/10], [1/2, 9/10, 1]] [1, 1, 2]
            ((sortInts [1, 2]).getD 0 0) ((sortInts [1, 2]).getD 1 0))))) / 2 ∧
    ((aggregateConstructSimilarity [[1, 0, 1/2], [0, 1, 9/10], [1/2, 9/10, 1]]
          [1, 1, 2] [1, 2] 2).getD 0 []).getD 1 0 = 7/10 :=
  ⟨by decide, by decide, by decide,
    constructSimilarity_top2_mean [[1, 0, 1/2], [0, 1, 9/10], [1/2, 9/10, 1]]
      [1, 1, 2] [1, 2] 0 1 (by decide) (by decide) (by decide),
    by
      norm_num [aggregateConstructSimilarity, buildMatQ, sortInts, acsCell,
        crossVals, npWhereEq, topSims, sortQ, npAverage, List.insertionSort,
        List.orderedInsert, List.range_succ]⟩

/-! ### Normalization lemmas -/

theorem sumSq_nonneg (l : List ℝ) : 0 ≤ sumSq l := by
  refine List.sum_nonneg ?_
  intro x hx
  obtain ⟨y, _, rfl⟩ := List.mem_map.mp hx
  positivity

theorem sumSq_eq_zero_iff (l : List ℝ) : sumSq l = 0 ↔ ∀ x ∈ l, x = 0 := by
  induction l with
  | nil => simp [sumSq]
  | cons x xs ih =>
    rw [sumSq, List.map_cons, List.sum_cons]
    have hx : (0 : ℝ) ≤ x ^ 2 := by positivity
    have hxs : (0 : ℝ) ≤ (xs.map (fun y => y ^ 2)).sum := sumSq_nonneg xs
    rw [add_eq_zero_iff_of_nonneg hx hxs]
    constructor
    · rintro ⟨h1, h2⟩ y hy
      rcases List.mem_cons.mp hy with rfl | hy
      · exact pow_eq_zero_iff (n := 2) (by norm_num) |>.mp h1
      · exact (ih.mp h2) y hy
    · intro h
      refine ⟨?_, ih.mpr fun y hy => h y (List.mem_cons_of_mem x hy)⟩
      rw [h x (List.mem_cons_self x xs)]
      norm_num

theorem sumSq_map_div (l : List ℝ) (c : ℝ) :
    sumSq (l.map (fun x => x / c)) = sumSq l / c ^ 2 := by
  induction l with
  | nil => simp [sumSq]
  | cons x xs ih =>
    simp only [List.map_cons, sumSq, List.sum_cons] at ih ⊢
    rw [ih, div_pow, add_div]

/-- Rows of nonzero norm have squared norm exactly 1 after
normalization. -/
theorem sumSq_l2NormalizeRow (l : List ℝ) (h : sumSq l ≠ 0) :
    sumSq (l2NormalizeRow l) = 1 := by
  have hpos : 0 < sumSq l := lt_of_le_of_ne (sumSq_nonneg l) (Ne.symm h)
  rw [l2NormalizeRow, if_neg h, sumSq_map_div,
    Real.sq_sqrt (le_of_lt hpos), div_self h]

/-- Zero rows are left untouched by the normalizer. -/
theorem l2NormalizeRow_zero (l : List ℝ) (h : ∀ x ∈ l, x = 0) :
    l2NormalizeRow l = l := by
  rw [l2NormalizeRow, if_pos ((sumSq_eq_zero_iff l).mpr h)]

/-! ### Claim C7: out-of-vocabulary handling -/

/-- C7: for a nonempty vector dictionary of uniform dimensionality,
`term_vectors_from_dict` returns (never raises); each out-of-vocabulary
target receives the all-zero vector of the dictionary dimensionality;
the OOV tally counts exactly the misses; and under L2 normalization the
zero rows stay zero. -/
theorem termVectorsFromDict_oov (vectorDict : List (String × List ℚ))
    (targetTerms : List String) (hne : vectorDict ≠ []) :
    ∃ rows ctr, termVectorsRaw vectorDict targetTerms = some (rows, ctr) ∧
      ctr = (targetTerms.filter
        (fun t => (vectorDict.lookup t).isNone)).length ∧
      rows.length = targetTerms.length ∧
      (∀ idx, ∀ h : idx < targetTerms.length,
        vectorDict.lookup (targetTerms.get ⟨idx, h⟩) = none →
          rows.getD idx [] =
            List.replicate (vectorDict.headD ("", [])).2.length 0) ∧
      termVectorsFromDict vectorDict targetTerms true =
        some (rows.map (fun r =>
          l2NormalizeRow (r.map (fun q => (q : ℝ)))), ctr) ∧
      (∀ n, l2NormalizeRow (List.replicate n (0 : ℝ)) =
        List.replicate n (0 : ℝ)) := by
  obtain ⟨hd, tl, rfl⟩ : ∃ hd tl, vectorDict = hd :: tl := by
    cases vectorDict with
    | nil => exact absurd rfl hne
    | cons hd tl => exact ⟨hd, tl, rfl⟩
  refine ⟨_, _, rfl, rfl, List.length_map _ _, ?_, ?_, ?_⟩
  · intro idx h hmiss
    rw [List.getD_eq_getElem?_getD,
      List.getElem?_eq_getElem (by simpa using h)]
    simp only [Option.getD_some, List.getElem_map]
    simp only [List.get_eq_getElem] at hmiss
    rw [hmiss]
    rfl
  · rfl
  · intro n
    refine l2NormalizeRow_zero _ ?_
    intro x hx
    exact List.eq_of_mem_replicate hx

/-- C7 (witness): the spec instance — a 3-entry dictionary of dimension
4, one absent target term, OOV counter exactly 1 and a zero row of
length 4. -/
theorem termVectorsFromDict_oov_witness :
    (([("xa", [1, 0, 0, (2 : ℚ)]), ("xb", [0, 1, 0, 0]),
        ("xc", [0, 0, 1, 0])] : List (String × List ℚ)) ≠ []) ∧
    (∃ rows ctr,
      termVectorsRaw [("xa", [1, 0, 0, (2 : ℚ)]), ("xb", [0, 1, 0, 0]),
          ("xc", [0, 0, 1, 0])] ["xa", "zz"] = some (rows, ctr) ∧
      ctr = ((["xa", "zz"] : List String).filter
        (fun t => (([("xa", [1, 0, 0, (2 : ℚ)]), ("xb", [0, 1, 0, 0]),
          ("xc", [0, 0, 1, 0])] : List (String × List ℚ)).lookup t).isNone)).length ∧
      rows.length = (["xa", "zz"] : List String).length ∧
      (∀ idx, ∀ h : idx < (["xa", "zz"] : List String).length,
        ([("xa", [1, 0, 0, (2 : ℚ)]), ("xb", [0, 1, 0, 0]),
          ("xc", [0, 0, 1, 0])] : List (String × List ℚ)).lookup
            ((["xa", "zz"] : List String).get ⟨idx, h⟩) = none →
          rows.getD idx [] =
            List.replicate (([("xa", [1, 0, 0, (2 : ℚ)]), ("xb", [0, 1, 0, 0]),
              ("xc", [0, 0, 1, 0])] : List (String × List ℚ)).headD
                ("", [])).2.length 0) ∧
      termVectorsFromDict [("xa", [1, 0, 0, (2 : ℚ)]), ("xb", [0, 1, 0, 0]),
          ("xc", [0, 0, 1, 0])] ["xa", "zz"] true =
        some (rows.map (fun r =>
          l2NormalizeRow (r.map (fun q => (q : ℝ)))), ctr) ∧
      (∀ n, l2NormalizeRow (List.replicate n (0 : ℝ)) =
        List.replicate n (0 : ℝ))) ∧
    ((["xa", "zz"] : List String).filter
      (fun t => (([("xa", [1, 0, 0, (2 : ℚ)]), ("xb", [0, 1, 0, 0]),
        ("xc", [0, 0, 1, 0])] : List (String × List ℚ)).lookup t).isNone)).length
      = 1 :=
  ⟨by decide,
    termVectorsFromDict_oov [("xa", [1, 0, 0, (2 : ℚ)]), ("xb", [0, 1, 0, 0]),
      ("xc", [0, 0, 1, 0])] ["xa", "zz"] (by decide),
    by decide⟩

/-! ### Claim C6: the gold identity matrix invariants -/

theorem getD_lt {α : Type} (l : List α) (d : α) (i : ℕ) (h : i < l.length) :
    l.getD i d = l[i] := by
  rw [List.getD_eq_getElem?_getD, List.getElem?_eq_getElem h]
  rfl

theorem getD_mem {α : Type} (l : List α) (d : α) (i : ℕ) (h : i < l.length) :
    l.getD i d ∈ l := by
  rw [getD_lt l d i h]
  exact List.getElem_mem h

theorem zerosQ_entry (n m r c : ℕ) :
    ((zerosQ n m).getD r []).getD c 0 = 0 := by
  have hrow : (zerosQ n m).getD r [] = [] ∨
      (zerosQ n m).getD r [] = List.replicate m 0 := by
    unfold zerosQ
    by_cases hr : r < n
    · right
      rw [getD_lt _ _ r (by simpa using hr), List.getElem_replicate]
    · left
      rw [List.getD_eq_getElem?_getD, List.getElem?_eq_none (by simpa using hr)]
      rfl
  rcases hrow with h | h <;> rw [h]
  · rfl
  · by_cases hc : c < m
    · rw [getD_lt _ _ c (by simpa using hc), List.getElem_replicate]
    · rw [List.getD_eq_getElem?_getD, List.getElem?_eq_none (by simpa using hc)]
      rfl

/-- Each write of `setCell` leaves an entry unchanged or sets exactly the
addressed in-range cell to 1. -/
theorem setCell_entry (m : List (List ℚ)) (r c r2 c2 : ℕ) :
    ((setCell m r c).getD r2 []).getD c2 0 = (m.getD r2 []).getD c2 0 ∨
    (((setCell m r c).getD r2 []).getD c2 0 = 1 ∧ r2 = r ∧ c2 = c) := by
  unfold setCell
  by_cases hr : r = r2
  · subst hr
    by_cases hrl : r < m.length
    · have hrow : (m.set r ((m.getD r []).set c 1)).getD r [] =
          (m.getD r []).set c 1 := by
        rw [getD_lt _ _ r (by simpa using hrl),
          List.getElem_set_self (by simpa using hrl)]
      rw [hrow]
      by_cases hc : c = c2
      · subst hc
        by_cases hcl : c < (m.getD r []).length
        · right
          rw [getD_lt _ _ c (by rw [List.length_set]; exact hcl),
            List.getElem_set_self (by rw [List.length_set]; exact hcl)]
          exact ⟨rfl, rfl, rfl⟩
        · left
          rw [List.set_eq_of_length_le (by omega)]
      · left
        have hcell : ((m.getD r []).set c 1).getD c2 0 =
            (m.getD r []).getD c2 0 := by
          rw [List.getD_eq_getElem?_getD, List.getElem?_set_ne hc,
            ← List.getD_eq_getElem?_getD]
        rw [hcell]
    · left
      rw [List.set_eq_of_length_le (by omega)]
  · left
    have hrow : (m.set r ((m.getD r []).set c 1)).getD r2 [] =
        m.getD r2 [] := by
      rw [List.getD_eq_getElem?_getD, List.getElem?_set_ne hr,
        ← List.getD_eq_getElem?_getD]
    rw [hrow]

theorem fillUpper_length (cells : List (ℕ × ℕ)) :
    ∀ m : List (List ℚ), (fillUpper cells m).length = m.length := by
  induction cells with
  | nil => intro m; rfl
  | cons q cs ih =>
    intro m
    rw [fillUpper, List.foldl_cons]
    have := ih (setCell m q.1 q.2)
    rw [fillUpper] at this
    rw [this, setCell, List.length_set]

theorem fillUpper_rows (w : ℕ) (cells : List (ℕ × ℕ)) :
    ∀ m : List (List ℚ), (∀ row ∈ m, row.length = w) →
      ∀ row ∈ fillUpper cells m, row.length = w := by
  induction cells with
  | nil => intro m hm; exact hm
  | cons q cs ih =>
    intro m hm
    rw [fillUpper, List.foldl_cons]
    refine ih (setCell m q.1 q.2) ?_
    intro row hrow
    unfold setCell at hrow
    by_cases hq : q.1 < m.length
    · rcases List.mem_or_eq_of_mem_set hrow with h | h
      · exact hm row h
      · rw [h, List.length_set]
        exact hm _ (getD_mem m [] q.1 hq)
    · rw [List.set_eq_of_length_le (by omega)] at hrow
      exact hm row hrow

/-- The invariant maintained by the upper-triangular fill: entries are
binary and a nonzero entry only sits at a position pair whose variable
ids are ordered. -/
theorem fillUpper_entries (v : List ℤ) (cells : List (ℕ × ℕ))
    (hc : ∀ q ∈ cells, q.1 < v.length ∧ q.2 < v.length ∧
      v.getD q.1 0 ≤ v.getD q.2 0) :
    ∀ m : List (List ℚ),
      (∀ r c : ℕ, ((m.getD r []).getD c 0 = 0 ∨ (m.getD r []).getD c 0 = 1) ∧
        ((m.getD r []).getD c 0 ≠ 0 → r < v.length ∧ c < v.length ∧
          v.getD r 0 ≤ v.getD c 0)) →
      ∀ r c : ℕ,
        (((fillUpper cells m).getD r []).getD c 0 = 0 ∨
          ((fillUpper cells m).getD r []).getD c 0 = 1) ∧
        (((fillUpper cells m).getD r []).getD c 0 ≠ 0 →
          r < v.length ∧ c < v.length ∧ v.getD r 0 ≤ v.getD c 0) := by
  induction cells with
  | nil => intro m hm; exact hm
  | cons q cs ih =>
    intro m hm
    rw [fillUpper, List.foldl_cons]
    have hq := hc q (List.mem_cons_self q cs)
    refine ih (fun p hp => hc p (List.mem_cons_of_mem q hp))
      (setCell m q.1 q.2) ?_
    intro r c
    rcases setCell_entry m q.1 q.2 r c with h | ⟨h1, rfl, rfl⟩
    · rw [h]; exact hm r c
    · rw [h1]
      exact ⟨Or.inr rfl, fun _ => hq⟩

theorem mem_upperPairs :
    ∀ (l : List ℤ) (q : ℤ × ℤ), q ∈ upperPairs l → q.1 ∈ l ∧ q.2 ∈ l := by
  intro l
  induction l with
  | nil => intro q hq; simp [upperPairs] at hq
  | cons x xs ih =>
    intro q hq
    rw [upperPairs] at hq
    rcases List.mem_append.mp hq with h | h
    · obtain ⟨y, hy, rfl⟩ := List.mem_map.mp h
      exact ⟨List.mem_cons_self x xs, List.mem_cons_of_mem x hy⟩
    · exact ⟨List.mem_cons_of_mem x (ih q h).1,
        List.mem_cons_of_mem x (ih q h).2⟩

theorem goldPairCells_ok (goldStandard : List (ℤ × ℤ))
    (poolIds variableIds : List ℤ)
    (hmem : ∀ p ∈ poolIds, ∀ vv ∈ poolMembers goldStandard p,
      vv ∈ variableIds) :
    ∀ q ∈ goldPairCells goldStandard poolIds variableIds,
      q.1 < variableIds.length ∧ q.2 < variableIds.length ∧
      variableIds.getD q.1 0 ≤ variableIds.getD q.2 0 := by
  intro q hq
  unfold goldPairCells at hq
  obtain ⟨p, hp, hq2⟩ := List.mem_flatMap.mp hq
  obtain ⟨pair, hpair, rfl⟩ := List.mem_map.mp hq2
  obtain ⟨hm1, hm2⟩ := mem_upperPairs _ pair hpair
  have hminmem : min pair.1 pair.2 ∈ variableIds := by
    rcases min_choice pair.1 pair.2 with h | h <;> rw [h]
    · exact hmem p hp _ hm1
    · exact hmem p hp _ hm2
  have hmaxmem : max pair.1 pair.2 ∈ variableIds := by
    rcases max_choice pair.1 pair.2 with h | h <;> rw [h]
    · exact hmem p hp _ hm1
    · exact hmem p hp _ hm2
  have hlt1 : variableIds.indexOf (min pair.1 pair.2) < variableIds.length :=
    List.indexOf_lt_length.mpr hminmem
  have hlt2 : variableIds.indexOf (max pair.1 pair.2) < variableIds.length :=
    List.indexOf_lt_length.mpr hmaxmem
  refine ⟨hlt1, hlt2, ?_⟩
  rw [getD_lt _ _ _ hlt1, getD_lt _ _ _ hlt2]
  have e1 : variableIds[variableIds.indexOf (min pair.1 pair.2)] =
      min pair.1 pair.2 := List.indexOf_get hlt1
  have e2 : variableIds[variableIds.indexOf (max pair.1 pair.2)] =
      max pair.1 pair.2 := List.indexOf_get hlt2
  rw [e1, e2]
  exact min_le_max

theorem buildMatQ_row (n m : ℕ) (f : ℕ → ℕ → ℚ) (i : ℕ) (hi : i < n) :
    (buildMatQ n m f).getD i [] = (List.range m).map (f i) := by
  rw [buildMatQ, getD_lt _ _ i (by simpa using hi), List.getElem_map,
    List.getElem_range]

theorem zipWith_add_getD (a b : List ℚ) (j : ℕ) (hja : j < a.length)
    (hjb : j < b.length) :
    (List.zipWith (fun x y => x + y) a b).getD j 0 =
      a.getD j 0 + b.getD j 0 := by
  rw [getD_lt _ _ j (by rw [List.length_zipWith]; omega),
    List.getElem_zipWith, getD_lt a 0 j hja, getD_lt b 0 j hjb]

theorem mapIdx_set_getD (a : List (List ℚ)) (i : ℕ) (hi : i < a.length) :
    (a.mapIdx (fun k row => row.set k 1)).getD i [] = (a.getD i []).set i 1 := by
  rw [getD_lt _ _ i (by rw [List.length_mapIdx]; exact hi),
    List.getElem_mapIdx, getD_lt a [] i hi]

/-- C6: for distinct variable ids covering every pool member, the gold
identity matrix is square, binary, symmetric, and has unit diagonal. -/
theorem constructIdentityGold_props (goldStandard : List (ℤ × ℤ))
    (poolIds variableIds : List ℤ) (hnd : variableIds.Nodup)
    (hmem : ∀ p ∈ poolIds, ∀ vv ∈ poolMembers goldStandard p,
      vv ∈ variableIds) :
    (recreateConstructIdentityGold goldStandard poolIds variableIds).length =
      variableIds.length ∧
    (∀ row ∈ recreateConstructIdentityGold goldStandard poolIds variableIds,
      row.length = variableIds.length) ∧
    (∀ i j : ℕ, i < variableIds.length → j < variableIds.length →
      (((recreateConstructIdentityGold goldStandard poolIds
            variableIds).getD i []).getD j 0 = 0 ∨
        ((recreateConstructIdentityGold goldStandard poolIds
            variableIds).getD i []).getD j 0 = 1) ∧
      ((recreateConstructIdentityGold goldStandard poolIds
          variableIds).getD i []).getD j 0 =
        ((recreateConstructIdentityGold goldStandard poolIds
            variableIds).getD j []).getD i 0) ∧
    (∀ i : ℕ, i < variableIds.length →
      ((recreateConstructIdentityGold goldStandard poolIds
          variableIds).getD i []).getD i 0 = 1) := by
  set n := variableIds.length with hn
  set cells := goldPairCells goldStandard poolIds variableIds with hcells
  set U := fillUpper cells (zerosQ n n) with hU
  have hUlen : U.length = n := by
    rw [hU, fillUpper_length, zerosQ, List.length_replicate]
  have hUrows : ∀ row ∈ U, row.length = n := by
    rw [hU]
    refine fillUpper_rows n cells _ ?_
    intro row hrow
    rw [List.eq_of_mem_replicate hrow, List.length_replicate]
  have hUent := fillUpper_entries variableIds cells
    (goldPairCells_ok goldStandard poolIds variableIds hmem)
    (zerosQ n n) (fun r c => ⟨Or.inl (zerosQ_entry n n r c),
      fun hne => absurd (zerosQ_entry n n r c) hne⟩)
  have hUanti : ∀ i j : ℕ, i ≠ j →
      ¬((U.getD i []).getD j 0 ≠ 0 ∧ (U.getD j []).getD i 0 ≠ 0) := by
    rintro i j hij ⟨h1, h2⟩
    obtain ⟨hi, hj, hij1⟩ := (hUent i j).2 h1
    obtain ⟨_, _, hij2⟩ := (hUent j i).2 h2
    have : variableIds.getD i 0 = variableIds.getD j 0 := le_antisymm hij1 hij2
    rw [getD_lt _ _ i hi, getD_lt _ _ j hj] at this
    have heq : (⟨i, hi⟩ : Fin variableIds.length) = ⟨j, hj⟩ :=
      hnd.get_inj_iff.mp (by simpa [List.get_eq_getElem] using this)
    exact hij (by simpa using congrArg Fin.val heq)
  set M := matAddQ U (transposeSq U n) with hM
  have hTlen : (transposeSq U n).length = n := by
    simp [transposeSq, buildMatQ]
  have hMrow : ∀ i : ℕ, i < n → M.getD i [] =
      List.zipWith (fun x y => x + y) (U.getD i [])
        ((transposeSq U n).getD i []) := by
    intro i hi
    rw [hM, matAddQ,
      getD_lt _ _ i (by rw [List.length_zipWith, hUlen, hTlen]; omega),
      List.getElem_zipWith, getD_lt U [] i (by omega),
      getD_lt (transposeSq U n) [] i (by omega)]
  have hMent : ∀ i j : ℕ, i < n → j < n →
      (M.getD i []).getD j 0 =
        (U.getD i []).getD j 0 + (U.getD j []).getD i 0 := by
    intro i j hi hj
    rw [hMrow i hi]
    have hrA : (U.getD i []).length = n := hUrows _ (getD_mem U [] i (by omega))
    have hrB : ((transposeSq U n).getD i []).length = n := by
      rw [transposeSq, buildMatQ_row n n _ i hi, List.length_map,
        List.length_range]
    rw [zipWith_add_getD _ _ j (by omega) (by omega)]
    have htr : ((transposeSq U n).getD i []).getD j 0 =
        (U.getD j []).getD i 0 := by
      rw [transposeSq]
      exact buildMatQ_getD n n _ i j hi hj
    rw [htr]
  have hMlen : M.length = n := by
    rw [hM, matAddQ, List.length_zipWith, hUlen, hTlen]
    omega
  have hGdef : recreateConstructIdentityGold goldStandard poolIds
      variableIds = M.mapIdx (fun k row => row.set k 1) := rfl
  have hGrow : ∀ i : ℕ, i < n →
      (recreateConstructIdentityGold goldStandard poolIds
        variableIds).getD i [] = (M.getD i []).set i 1 := by
    intro i hi
    rw [hGdef]
    exact mapIdx_set_getD M i (by omega)
  have hMrowlen : ∀ i : ℕ, i < n → (M.getD i []).length = n := by
    intro i hi
    rw [hMrow i hi, List.length_zipWith,
      hUrows _ (getD_mem U [] i (by omega))]
    rw [show ((transposeSq U n).getD i []).length = n from by
      rw [transposeSq, buildMatQ_row n n _ i hi, List.length_map,
        List.length_range]]
    omega
  have hGent : ∀ i j : ℕ, i < n → j < n →
      ((recreateConstructIdentityGold goldStandard poolIds
          variableIds).getD i []).getD j 0 =
        if j = i then 1 else
          (U.getD i []).getD j 0 + (U.getD j []).getD i 0 := by
    intro i j hi hj
    rw [hGrow i hi]
    by_cases hji : j = i
    · subst hji
      rw [if_pos rfl, getD_lt _ _ j (by rw [List.length_set, hMrowlen j hj]; omega),
        List.getElem_set_self (by rw [List.length_set, hMrowlen j hj]; omega)]
    · rw [if_neg hji, List.getD_eq_getElem?_getD,
        List.getElem?_set_ne (fun hc => hji hc.symm),
        ← List.getD_eq_getElem?_getD, hMent i j hi hj]
  refine ⟨?_, ?_, ?_, ?_⟩
  · rw [hGdef, List.length_mapIdx, hMlen]
  · intro row hrow
    rw [hGdef] at hrow
    obtain ⟨i, hi, rfl⟩ := List.mem_mapIdx.mp hrow
    rw [List.length_set]
    rw [hMlen] at hi
    have := hMrowlen i hi
    rw [getD_lt M [] i (by omega)] at this
    exact this
  · intro i j hi hj
    constructor
    · rw [hGent i j hi hj]
      by_cases hji : j = i
      · rw [if_pos hji]; exact Or.inr rfl
      · rw [if_neg hji]
        rcases (hUent i j).1 with h1 | h1 <;> rcases (hUent j i).1 with h2 | h2
        · rw [h1, h2]; norm_num
        · rw [h1, h2]; norm_num
        · rw [h1, h2]; norm_num
        · exact absurd ⟨by rw [h1]; norm_num, by rw [h2]; norm_num⟩
            (hUanti i j (fun hc => hji hc.symm))
    · rw [hGent i j hi hj, hGent j i hj hi]
      by_cases hji : j = i
      · rw [if_pos hji, if_pos hji.symm]
      · rw [if_neg hji, if_neg (fun hc => hji hc.symm)]
        ring
  · intro i hi
    rw [hGent i i hi hi, if_pos rfl]

/-- C6 (witness): two pools `{10, 30}` and `{20, 40}` over the variable
ids `[10, 20, 30, 40]`. -/
theorem constructIdentityGold_props_witness :
    ([10, 20, 30, 40] : List ℤ).Nodup ∧
    (∀ p ∈ ([1, 2] : List ℤ),
      ∀ vv ∈ poolMembers [(1, 10), (1, 30), (2, 20), (2, 40)] p,
        vv ∈ ([10, 20, 30, 40] : List ℤ)) ∧
    ((recreateConstructIdentityGold [(1, 10), (1, 30), (2, 20), (2, 40)]
        [1, 2] [10, 20, 30, 40]).length = ([10, 20, 30, 40] : List ℤ).length ∧
      (∀ row ∈ recreateConstructIdentityGold [(1, 10), (1, 30), (2, 20), (2, 40)]
          [1, 2] [10, 20, 30, 40],
        row.length = ([10, 20, 30, 40] : List ℤ).length) ∧
      (∀ i j : ℕ, i < ([10, 20, 30, 40] : List ℤ).length →
        j < ([10, 20, 30, 40] : List ℤ).length →
        (((recreateConstructIdentityGold [(1, 10), (1, 30), (2, 20), (2, 40)]
              [1, 2] [10, 20, 30, 40]).getD i []).getD j 0 = 0 ∨
          ((recreateConstructIdentityGold [(1, 10), (1, 30), (2, 20), (2, 40)]
              [1, 2] [10, 20, 30, 40]).getD i []).getD j 0 = 1) ∧
        ((recreateConstructIdentityGold [(1, 10), (1, 30), (2, 20), (2, 40)]
            [1, 2] [10, 20, 30, 40]).getD i []).getD j 0 =
          ((recreateConstructIdentityGold [(1, 10), (1, 30), (2, 20), (2, 40)]
              [1, 2] [10, 20, 30, 40]).getD j []).getD i 0) ∧
      (∀ i : ℕ, i < ([10, 20, 30, 40] : List ℤ).length →
        ((recreateConstructIdentityGold [(1, 10), (1, 30), (2, 20), (2, 40)]
            [1, 2] [10, 20, 30, 40]).getD i []).getD i 0 = 1)) :=
  ⟨by decide, by decide,
    constructIdentityGold_props [(1, 10), (1, 30), (2, 20), (2, 40)] [1, 2]
      [10, 20, 30, 40] (by decide) (by decide)⟩

/-! ### Claim C5: unit-norm rows of the weighted matrices -/

theorem rangeMap_getD {α : Type} (n : ℕ) (f : ℕ → α) (d : ℕ) (dflt : α)
    (hd : d < n) : ((List.range n).map f).getD d dflt = f d := by
  rw [getD_lt _ _ d (by simpa using hd), List.getElem_map, List.getElem_range]

theorem map_getD_lt {α β : Type} (f : α → β) (l : List α) (d : ℕ) (da : α)
    (db : β) (h : d < l.length) : (l.map f).getD d db = f (l.getD d da) := by
  rw [getD_lt _ _ d (by simpa using h), List.getElem_map, getD_lt l da d h]

theorem cvCountRow_getD (vocab : List String) (doc : String) (t : ℕ)
    (ht : t < vocab.length) :
    (cvCountRow vocab doc).getD t 0 =
      (cvTokenize doc).count (vocab.getD t "") := by
  unfold cvCountRow
  rw [map_getD_lt _ vocab t "" 0 ht]

theorem cvCountRow_zero (vocab : List String) (doc : String)
    (h : cvTokenize doc = []) (t : ℕ) :
    (cvCountRow vocab doc).getD t 0 = 0 := by
  by_cases ht : t < vocab.length
  · rw [cvCountRow_getD vocab doc t ht, h]
    rfl
  · rw [List.getD_eq_getElem?_getD, List.getElem?_eq_none
      (by rw [cvCountRow, List.length_map]; omega)]
    rfl

theorem cvCountRow_nonzero (corpus vocab : List String) (doc : String)
    (hdoc : doc ∈ corpus) (hvocab : vocab = cvVocabRaw corpus)
    (hne : cvTokenize doc ≠ []) :
    ∃ t, t < vocab.length ∧ (cvCountRow vocab doc).getD t 0 ≠ 0 := by
  obtain ⟨tok, htok⟩ : ∃ tok, tok ∈ cvTokenize doc := by
    cases hcv : cvTokenize doc with
    | nil => exact absurd hcv hne
    | cons x xs => exact ⟨x, by simp [hcv]⟩
  have hmem : tok ∈ vocab := by
    rw [hvocab]
    exact token_mem_cvVocabRaw corpus doc hdoc tok htok
  have hlt := List.indexOf_lt_length.mpr hmem
  refine ⟨vocab.indexOf tok, hlt, ?_⟩
  have hix2 := List.indexOf_get hlt
  simp only [List.get_eq_getElem] at hix2
  have hix : vocab[vocab.indexOf tok] = tok := hix2
  rw [cvCountRow_getD _ _ _ hlt, getD_lt vocab "" _ hlt, hix]
  have := List.count_pos_iff.mpr htok
  omega

theorem pEntry_nonneg (m : List (List ℕ)) (d t : ℕ) : 0 ≤ pEntry m d t := by
  unfold pEntry
  positivity

theorem idfSmooth_pos (n df : ℕ) (hdf : df ≤ n) : 0 < idfSmooth n df := by
  unfold idfSmooth
  have h1 : (1 : ℝ) ≤ (1 + (n : ℝ)) / (1 + (df : ℝ)) := by
    rw [le_div_iff₀ (by positivity)]
    have : (df : ℝ) ≤ (n : ℝ) := Nat.cast_le.mpr hdf
    linarith
  have := Real.log_nonneg h1
  linarith

theorem globalWeightIs_ge_one (m : List (List ℕ)) (t : ℕ) :
    1 ≤ globalWeightIs m t := by
  unfold globalWeightIs
  have hsum : 0 ≤ ((List.range m.length).map (fun d =>
      pEntry m d t * Real.log (pEntry m d t + 1))).sum := by
    refine List.sum_nonneg ?_
    intro x hx
    obtain ⟨d, _, rfl⟩ := List.mem_map.mp hx
    have h1 : 0 ≤ pEntry m d t := pEntry_nonneg m d t
    have h2 : 0 ≤ Real.log (pEntry m d t + 1) := Real.log_nonneg (by linarith)
    positivity
  have hlog : 0 ≤ Real.log ((m.length : ℝ) + 1) := by
    refine Real.log_nonneg ?_
    have : (0 : ℝ) ≤ (m.length : ℝ) := Nat.cast_nonneg _
    linarith
  have := div_nonneg hsum hlog
  linarith

/-- The two branches of the row invariant, for any raw row. -/
theorem norm_branch (raw : List ℝ) :
    ((∃ x ∈ raw, x ≠ 0) → sumSq (l2NormalizeRow raw) = 1) ∧
    ((∀ x ∈ raw, x = 0) → ∀ x ∈ l2NormalizeRow raw, x = 0) := by
  constructor
  · rintro ⟨x, hx, hxe⟩
    refine sumSq_l2NormalizeRow raw ?_
    intro hc
    exact hxe ((sumSq_eq_zero_iff raw).mp hc x hx)
  · intro hz
    rw [l2NormalizeRow_zero raw hz]
    exact hz

/-- C5: for modes `l2`, `tfidf_l2` and `log_l2`, every row of the matrix
returned by `document_term_cooccurrence` has squared L2 norm exactly 1,
except the rows of documents with no recognized terms, which are
all-zero. -/
theorem dtm_rows_unit_norm (corpus vocab : List String)
    (mnat : List (List ℕ)) (mode : DtmMode) (hmode : mode ≠ DtmMode.count)
    (h : documentTermCount corpus = some (vocab, mnat)) (d : ℕ)
    (hd : d < corpus.length) :
    documentTermCooccurrence corpus mode =
      some (weightMatrix mode mnat vocab.length, vocab) ∧
    (cvTokenize (corpus.getD d "") ≠ [] →
      sumSq ((weightMatrix mode mnat vocab.length).getD d []) = 1) ∧
    (cvTokenize (corpus.getD d "") = [] →
      ∀ x ∈ (weightMatrix mode mnat vocab.length).getD d [], x = 0) := by
  obtain ⟨hvocab, hm⟩ := documentTermCount_eq corpus vocab mnat h
  have hlen : mnat.length = corpus.length := by rw [hm, List.length_map]
  have hdoc : corpus.getD d "" ∈ corpus := getD_mem corpus "" d hd
  have hcnt : ∀ t : ℕ, (mnat.getD d []).getD t 0 =
      (cvCountRow vocab (corpus.getD d "")).getD t 0 := by
    intro t
    rw [hm, map_getD_lt (cvCountRow vocab) corpus d "" [] hd]
  have hfirst : documentTermCooccurrence corpus mode =
      some (weightMatrix mode mnat vocab.length, vocab) := by
    unfold documentTermCooccurrence
    rw [h]
    rfl
  refine ⟨hfirst, ?_⟩
  set w := vocab.length with hw
  -- the raw (pre-normalization) row of each mode and its zero pattern
  cases mode with
  | count => exact absurd rfl hmode
  | l2 =>
    have hrow : (weightMatrix DtmMode.l2 mnat w).getD d [] =
        l2NormalizeRow (countRowR mnat d w) := by
      show ((List.range mnat.length).map
        (fun dd => l2NormalizeRow (countRowR mnat dd w))).getD d [] = _
      rw [rangeMap_getD mnat.length _ d [] (by omega)]
    rw [hrow]
    constructor
    · intro hne
      refine (norm_branch (countRowR mnat d w)).1 ?_
      obtain ⟨t0, ht0, hcz⟩ := cvCountRow_nonzero corpus vocab _ hdoc hvocab hne
      refine ⟨(((mnat.getD d []).getD t0 0 : ℕ) : ℝ), ?_, ?_⟩
      · exact List.mem_map.mpr ⟨t0, List.mem_range.mpr ht0, rfl⟩
      · rw [hcnt t0]
        exact Nat.cast_ne_zero.mpr hcz
    · intro hzero
      refine (norm_branch (countRowR mnat d w)).2 ?_
      intro x hx
      obtain ⟨t, _, rfl⟩ := List.mem_map.mp hx
      rw [hcnt t, cvCountRow_zero vocab _ hzero t]
      norm_num
  | tfidfL2 =>
    have hrow : (weightMatrix DtmMode.tfidfL2 mnat w).getD d [] =
        l2NormalizeRow (tfidfRow mnat d w) := by
      show ((List.range mnat.length).map
        (fun dd => l2NormalizeRow (tfidfRow mnat dd w))).getD d [] = _
      rw [rangeMap_getD mnat.length _ d [] (by omega)]
    rw [hrow]
    constructor
    · intro hne
      refine (norm_branch (tfidfRow mnat d w)).1 ?_
      obtain ⟨t0, ht0, hcz⟩ := cvCountRow_nonzero corpus vocab _ hdoc hvocab hne
      refine ⟨(((mnat.getD d []).getD t0 0 : ℕ) : ℝ) *
        idfSmooth mnat.length (docFreqM mnat t0), ?_, ?_⟩
      · exact List.mem_map.mpr ⟨t0, List.mem_range.mpr ht0, rfl⟩
      · refine mul_ne_zero ?_ ?_
        · rw [hcnt t0]
          exact Nat.cast_ne_zero.mpr hcz
        · exact ne_of_gt (idfSmooth_pos mnat.length (docFreqM mnat t0)
            (List.length_filter_le _ _))
    · intro hzero
      refine (norm_branch (tfidfRow mnat d w)).2 ?_
      intro x hx
      obtain ⟨t, _, rfl⟩ := List.mem_map.mp hx
      rw [hcnt t, cvCountRow_zero vocab _ hzero t]
      norm_num
  | logL2 =>
    have hrow : (weightMatrix DtmMode.logL2 mnat w).getD d [] =
        l2NormalizeRow ((List.range w).map (fun t =>
          (((mnat.getD d []).getD t 0 : ℕ) : ℝ) *
            Real.log ((((mnat.getD d []).getD t 0 : ℕ) : ℝ) + 1) *
            globalWeightIs mnat t)) := by
      show (dtMatrixLogL2Is mnat w).getD d [] = _
      rw [dtMatrixLogL2Is,
        map_getD_lt l2NormalizeRow (dtMatrixLogIs mnat w) d [] []
          (by rw [dtMatrixLogIs, List.length_map]; omega)]
      rw [dtMatrixLogIs, map_getD_lt _ mnat d [] [] (by omega)]
    rw [hrow]
    constructor
    · intro hne
      refine (norm_branch _).1 ?_
      obtain ⟨t0, ht0, hcz⟩ := cvCountRow_nonzero corpus vocab _ hdoc hvocab hne
      refine ⟨(((mnat.getD d []).getD t0 0 : ℕ) : ℝ) *
        Real.log ((((mnat.getD d []).getD t0 0 : ℕ) : ℝ) + 1) *
        globalWeightIs mnat t0, ?_, ?_⟩
      · exact List.mem_map.mpr ⟨t0, List.mem_range.mpr ht0, rfl⟩
      · have hc1 : (1 : ℝ) ≤ (((mnat.getD d []).getD t0 0 : ℕ) : ℝ) := by
          rw [hcnt t0]
          exact_mod_cast Nat.one_le_iff_ne_zero.mpr hcz
        refine mul_ne_zero (mul_ne_zero ?_ ?_) ?_
        · linarith
        · refine ne_of_gt (Real.log_pos ?_)
          linarith
        · have := globalWeightIs_ge_one mnat t0
          linarith
    · intro hzero
      refine (norm_branch _).2 ?_
      intro x hx
      obtain ⟨t, _, rfl⟩ := List.mem_map.mp hx
      rw [hcnt t, cvCountRow_zero vocab _ hzero t]
      norm_num

/-- C5 (witness): the `log_l2` rows of the two-document corpus
`["aa bb", "bb cc"]`. -/
theorem dtm_rows_unit_norm_witness :
    (DtmMode.logL2 ≠ DtmMode.count) ∧
    documentTermCount ["aa bb", "bb cc"] =
      some (["aa", "bb", "cc"], [[1, 1, 0], [0, 1, 1]]) ∧
    ((0 : ℕ) < (["aa bb", "bb cc"] : List String).length) ∧
    (documentTermCooccurrence ["aa bb", "bb cc"] DtmMode.logL2 =
      some (weightMatrix DtmMode.logL2 [[1, 1, 0], [0, 1, 1]]
        (["aa", "bb", "cc"] : List String).length, ["aa", "bb", "cc"]) ∧
    (cvTokenize ((["aa bb", "bb cc"] : List String).getD 0 "") ≠ [] →
      sumSq ((weightMatrix DtmMode.logL2 [[1, 1, 0], [0, 1, 1]]
        (["aa", "bb", "cc"] : List String).length).getD 0 []) = 1) ∧
    (cvTokenize ((["aa bb", "bb cc"] : List String).getD 0 "") = [] →
      ∀ x ∈ (weightMatrix DtmMode.logL2 [[1, 1, 0], [0, 1, 1]]
        (["aa", "bb", "cc"] : List String).length).getD 0 [], x = 0)) :=
  ⟨by decide, by decide, by decide,
    dtm_rows_unit_norm ["aa bb", "bb cc"] ["aa", "bb", "cc"]
      [[1, 1, 0], [0, 1, 1]] DtmMode.logL2 (by decide) (by decide) 0
      (by decide)⟩

/-! ### Claim C4: the two log-entropy implementations

The difference is the `+ 1` inside the inner logarithm: on the count
matrix `[[1, 1], [0, 1]]` the `is_constructs.py` global weights are
`1 + ln 2 / ln 3` and `1 + ln(3/2) / ln 3` while those of `myLSA.py`
are `1` and `1 - ln 2 / ln 3`, and the normalized first rows differ
because their cross products differ
(`ln 3 ^ 2 - ln 2 * ln 3 + ln 2 ^ 2 > 0`). -/

theorem pEntry00 : pEntry [[1, 1], [0, 1]] 0 0 = 1 := by
  norm_num [pEntry, colSumM]

theorem pEntry10 : pEntry [[1, 1], [0, 1]] 1 0 = 0 := by
  norm_num [pEntry, colSumM]

theorem pEntry01 : pEntry [[1, 1], [0, 1]] 0 1 = 1/2 := by
  norm_num [pEntry, colSumM]

theorem pEntry11 : pEntry [[1, 1], [0, 1]] 1 1 = 1/2 := by
  norm_num [pEntry, colSumM]

theorem gIs0 : globalWeightIs [[1, 1], [0, 1]] 0 =
    1 + Real.log 2 / Real.log 3 := by
  unfold globalWeightIs
  rw [show ([[1, 1], [0, 1]] : List (List ℕ)).length = 2 from rfl]
  norm_num [List.range_succ, pEntry00, pEntry10]

theorem gIs1 : globalWeightIs [[1, 1], [0, 1]] 1 =
    1 + Real.log (3/2) / Real.log 3 := by
  unfold globalWeightIs
  rw [show ([[1, 1], [0, 1]] : List (List ℕ)).length = 2 from rfl]
  norm_num [List.range_succ, pEntry01, pEntry11]
  ring_nf

theorem gMy0 : globalWeightMy [[1, 1], [0, 1]] 0 = 1 := by
  unfold globalWeightMy
  rw [show ([[1, 1], [0, 1]] : List (List ℕ)).length = 2 from rfl]
  norm_num [List.range_succ, pEntry00, pEntry10, Real.log_one]

theorem gMy1 : globalWeightMy [[1, 1], [0, 1]] 1 =
    1 - Real.log 2 / Real.log 3 := by
  unfold globalWeightMy
  rw [show ([[1, 1], [0, 1]] : List (List ℕ)).length = 2 from rfl]
  norm_num [List.range_succ, pEntry01, pEntry11]
  rw [show (1/2 : ℝ) = 2⁻¹ by norm_num, Real.log_inv]
  ring

theorem row0Is : (dtMatrixLogIs [[1, 1], [0, 1]] 2).getD 0 [] =
    [Real.log 2 * (1 + Real.log 2 / Real.log 3),
     Real.log 2 * (1 + Real.log (3/2) / Real.log 3)] := by
  unfold dtMatrixLogIs
  norm_num [List.range_succ, gIs0, gIs1]

theorem row0My : (dtMatrixLogMy [[1, 1], [0, 1]] 2).getD 0 [] =
    [Real.log 2,
     Real.log 2 * (1 - Real.log 2 / Real.log 3)] := by
  unfold dtMatrixLogMy
  norm_num [List.range_succ, gMy0, gMy1]

/-- The two log-entropy pipelines disagree on `[[1, 1], [0, 1]]`. -/
theorem logL2_versions_differ :
    dtMatrixLogL2Is [[1, 1], [0, 1]] 2 ≠ dtMatrixLogL2My [[1, 1], [0, 1]] 2 := by
  have hl2 : 0 < Real.log 2 := Real.log_pos (by norm_num)
  have hl3 : 0 < Real.log 3 := Real.log_pos (by norm_num)
  intro h
  have e1 : (dtMatrixLogL2Is [[1, 1], [0, 1]] 2).getD 0 [] =
      l2NormalizeRow [Real.log 2 * (1 + Real.log 2 / Real.log 3),
        Real.log 2 * (1 + Real.log (3/2) / Real.log 3)] := by
    rw [dtMatrixLogL2Is, map_getD_lt l2NormalizeRow _ 0 [] []
      (by simp [dtMatrixLogIs]), row0Is]
  have e2 : (dtMatrixLogL2My [[1, 1], [0, 1]] 2).getD 0 [] =
      l2NormalizeRow [Real.log 2,
        Real.log 2 * (1 - Real.log 2 / Real.log 3)] := by
    rw [dtMatrixLogL2My, map_getD_lt l2NormalizeRow _ 0 [] []
      (by simp [dtMatrixLogMy]), row0My]
  have hrow : l2NormalizeRow [Real.log 2 * (1 + Real.log 2 / Real.log 3),
        Real.log 2 * (1 + Real.log (3/2) / Real.log 3)] =
      l2NormalizeRow [Real.log 2,
        Real.log 2 * (1 - Real.log 2 / Real.log 3)] := by
    rw [← e1, ← e2, h]
  have hA1 : 0 < Real.log 2 * (1 + Real.log 2 / Real.log 3) := by
    have : 0 < Real.log 2 / Real.log 3 := div_pos hl2 hl3
    nlinarith
  have hs1 : 0 < sumSq [Real.log 2 * (1 + Real.log 2 / Real.log 3),
      Real.log 2 * (1 + Real.log (3/2) / Real.log 3)] := by
    simp only [sumSq, List.map_cons, List.map_nil, List.sum_cons, List.sum_nil]
    nlinarith [pow_pos hA1 2,
      sq_nonneg (Real.log 2 * (1 + Real.log (3/2) / Real.log 3))]
  have hs2 : 0 < sumSq [Real.log 2,
      Real.log 2 * (1 - Real.log 2 / Real.log 3)] := by
    simp only [sumSq, List.map_cons, List.map_nil, List.sum_cons, List.sum_nil]
    nlinarith [pow_pos hl2 2,
      sq_nonneg (Real.log 2 * (1 - Real.log 2 / Real.log 3))]
  rw [l2NormalizeRow, if_neg (ne_of_gt hs1), l2NormalizeRow,
    if_neg (ne_of_gt hs2)] at hrow
  simp only [List.map_cons, List.map_nil, List.cons.injEq, and_true] at hrow
  obtain ⟨he1, he2⟩ := hrow
  have hsq1 : 0 < Real.sqrt (sumSq [Real.log 2 * (1 + Real.log 2 / Real.log 3),
      Real.log 2 * (1 + Real.log (3/2) / Real.log 3)]) := Real.sqrt_pos.mpr hs1
  have hsq2 : 0 < Real.sqrt (sumSq [Real.log 2,
      Real.log 2 * (1 - Real.log 2 / Real.log 3)]) := Real.sqrt_pos.mpr hs2
  rw [div_eq_div_iff (ne_of_gt hsq1) (ne_of_gt hsq2)] at he1 he2
  have h1 : Real.log 2 * (1 + Real.log 2 / Real.log 3) *
      (Real.log 2 * (1 + Real.log (3/2) / Real.log 3)) *
      Real.sqrt (sumSq [Real.log 2,
        Real.log 2 * (1 - Real.log 2 / Real.log 3)]) =
      Real.log 2 * (Real.log 2 * (1 + Real.log (3/2) / Real.log 3)) *
      Real.sqrt (sumSq [Real.log 2 * (1 + Real.log 2 / Real.log 3),
        Real.log 2 * (1 + Real.log (3/2) / Real.log 3)]) := by
    linear_combination (Real.log 2 * (1 + Real.log (3/2) / Real.log 3)) * he1
  have h2 : Real.log 2 * (1 + Real.log 2 / Real.log 3) *
      (Real.log 2 * (1 + Real.log (3/2) / Real.log 3)) *
      Real.sqrt (sumSq [Real.log 2,
        Real.log 2 * (1 - Real.log 2 / Real.log 3)]) =
      Real.log 2 * (1 + Real.log 2 / Real.log 3) *
      (Real.log 2 * (1 - Real.log 2 / Real.log 3)) *
      Real.sqrt (sumSq [Real.log 2 * (1 + Real.log 2 / Real.log 3),
        Real.log 2 * (1 + Real.log (3/2) / Real.log 3)]) := by
    linear_combination (Real.log 2 * (1 + Real.log 2 / Real.log 3)) * he2
  have h3 := mul_right_cancel₀ (ne_of_gt hsq1) (h1.symm.trans h2)
  rw [Real.log_div (by norm_num) (by norm_num)] at h3
  have hl3ne : Real.log 3 ≠ 0 := ne_of_gt hl3
  field_simp at h3
  have hfac : 0 < Real.log 3 ^ 2 - Real.log 2 * Real.log 3 + Real.log 2 ^ 2 := by
    nlinarith [sq_nonneg (2 * Real.log 3 - Real.log 2), pow_pos hl2 2]
  have key : 0 < Real.log 2 ^ 2 * Real.log 3 *
      (Real.log 3 ^ 2 - Real.log 2 * Real.log 3 + Real.log 2 ^ 2) :=
    mul_pos (mul_pos (pow_pos hl2 2) hl3) hfac
  nlinarith [key]

/-- C4 (counterexample): the claim that the `myLSA.py` log-entropy
weighting computes the same formula as `document_term_cooccurrence`
(mode `log_l2`) is false: on the count matrix `[[1, 1], [0, 1]]` the two
L2-normalized log-entropy matrices differ (`ln(p + 1)` versus `ln p` in
the entropy sum). -/
theorem logL2_equivalence_counterexample :
    dtMatrixLogL2Is [[1, 1], [0, 1]] 2 ≠ dtMatrixLogL2My [[1, 1], [0, 1]] 2 :=
  logL2_versions_differ

/-- C4 (amended): mode `log_l2` computes each unnormalized cell as
`count * ln(count + 1) * (1 + (sum_doc p * ln(p + 1)) / ln(n_docs + 1))`
with `p = count / column_total`, followed by L2 row normalization,
exactly the stated formula; the module-level `myLSA.py` weighting uses
`ln p` (with `-inf` replaced by 0) inside the entropy sum instead, and
the two implementations are NOT equivalent. -/
theorem logL2_formula_and_difference (m : List (List ℕ)) (w d t : ℕ)
    (hd : d < m.length) (ht : t < w) :
    ((dtMatrixLogIs m w).getD d []).getD t 0 = logL2SpecCell m d t ∧
    weightMatrix DtmMode.logL2 m w = (dtMatrixLogIs m w).map l2NormalizeRow ∧
    dtMatrixLogL2Is [[1, 1], [0, 1]] 2 ≠ dtMatrixLogL2My [[1, 1], [0, 1]] 2 := by
  refine ⟨?_, rfl, logL2_versions_differ⟩
  rw [dtMatrixLogIs, map_getD_lt _ m d [] [] hd, rangeMap_getD w _ t 0 ht]
  rfl

/-- C4 (amended, witness): the formula read off at cell (0, 0) of the
count matrix `[[1, 1], [0, 1]]`. -/
theorem logL2_formula_and_difference_witness :
    (0 < ([[1, 1], [0, 1]] : List (List ℕ)).length) ∧ (0 < 2) ∧
    (((dtMatrixLogIs [[1, 1], [0, 1]] 2).getD 0 []).getD 0 0 =
        logL2SpecCell [[1, 1], [0, 1]] 0 0 ∧
      weightMatrix DtmMode.logL2 [[1, 1], [0, 1]] 2 =
        (dtMatrixLogIs [[1, 1], [0, 1]] 2).map l2NormalizeRow ∧
      dtMatrixLogL2Is [[1, 1], [0, 1]] 2 ≠
        dtMatrixLogL2My [[1, 1], [0, 1]] 2) :=
  ⟨by decide, by decide,
    logL2_formula_and_difference [[1, 1], [0, 1]] 2 0 0 (by decide) (by decide)⟩

end IsConstructs
